import Mathlib

/-!
Verification development for the STCM2L script decompiler
(src/release/stcm2l_decompiler_v1.1.26.py).

Byte buffers are modelled as `List Nat` (one natural number per byte);
decoded text is modelled as `List Char`.  Python's float comparisons
`x / n > c` with decimal constants are modelled by the exact rational
comparison (the operands are small integers, so the two agree).
-/

namespace STCM2L

/-- A byte buffer: one natural number per byte of the input file. -/
abbrev ByteBuf := List Nat

/-- Byte at position `i` (0 when out of range; all reads in the embedded
code are guarded exactly as in the source). -/
def byteAt (data : ByteBuf) (i : Nat) : Nat := data.getD i 0

/-- Little-endian unsigned 32-bit read at `pos`, as `struct.unpack('<I', data[pos:pos+4])`. -/
def u32le (data : ByteBuf) (pos : Nat) : Nat :=
  byteAt data pos + 256 * byteAt data (pos + 1) +
    65536 * byteAt data (pos + 2) + 16777216 * byteAt data (pos + 3)

/-- The 6-byte magic tag `b'STCM2L'`. -/
def stcm2lMagic : ByteBuf := [0x53, 0x54, 0x43, 0x4D, 0x32, 0x4C]

/-- Embedding of `detect_format` (source lines 76-92): empty data is
"unknown", a buffer beginning with the magic is "full", a buffer of at
least 8 bytes whose first little-endian u32 is below 10000 is "dialogue",
anything else "unknown". -/
def detect_format (data : ByteBuf) : String :=
  if data = [] then "unknown"
  else if data.take 6 = stcm2lMagic then "full"
  else if 8 ≤ data.length ∧ u32le data 0 < 10000 then "dialogue"
  else "unknown"

/-- The format detector as the specification states it: "full" exactly when
the buffer begins with the 6-byte magic tag, otherwise "dialogue" exactly
when the buffer is at least 8 bytes long and its first 4 bytes read as a
little-endian unsigned integer are strictly below 10000, otherwise
"unknown". -/
def detectFormatSpec (data : ByteBuf) : String :=
  if data.take 6 = stcm2lMagic then "full"
  else if 8 ≤ data.length ∧ u32le data 0 < 10000 then "dialogue"
  else "unknown"

/-- ASCII lowercase letter test (the regex class [a-z]). -/
def isAsciiLower (c : Char) : Bool := 'a' ≤ c && c ≤ 'z'

/-- ASCII uppercase letter test (the regex class [A-Z]). -/
def isAsciiUpper (c : Char) : Bool := 'A' ≤ c && c ≤ 'Z'

/-- ASCII letter test (the regex class [A-Za-z], or [a-z] under IGNORECASE). -/
def isAsciiLetter (c : Char) : Bool := isAsciiLower c || isAsciiUpper c

/-- ASCII digit test (the regex class [0-9] and Python's backslash-d). -/
def isDigitCh (c : Char) : Bool := '0' ≤ c && c ≤ '9'

/-- The regex class [0-9a-f] under IGNORECASE. -/
def isHexCI (c : Char) : Bool :=
  isDigitCh c || ('a' ≤ c && c ≤ 'f') || ('A' ≤ c && c ≤ 'F')

/-- ASCII word character (the regex class [a-zA-Z0-9_]). -/
def isAsciiWordCh (c : Char) : Bool := isAsciiLetter c || isDigitCh c || c = '_'

/-- Python str.isalpha, restricted to the scripts this program handles:
ASCII letters, hiragana, katakana (including the prolonged sound mark),
and CJK unified ideographs. -/
def pyIsAlpha (c : Char) : Bool :=
  isAsciiLetter c ||
  (0x3041 ≤ c.toNat && c.toNat ≤ 0x3096) ||
  (0x30A1 ≤ c.toNat && c.toNat ≤ 0x30FA) || c.toNat = 0x30FC ||
  (0x4E00 ≤ c.toNat && c.toNat ≤ 0x9FFF)

/-- Word character for the regex word-boundary backslash-b
(alphanumeric or underscore). -/
def pyIsWordCh (c : Char) : Bool := pyIsAlpha c || isDigitCh c || c = '_'

/-- Python str.lower: ASCII case folding (the rosters' kana are unaffected). -/
def pyLower (c : Char) : Char :=
  if isAsciiUpper c then Char.ofNat (c.toNat + 32) else c

/-- Python str.isupper on one character, for the ASCII letters the
assembler inspects. -/
def pyIsUpper (c : Char) : Bool := isAsciiUpper c

/-- Whitespace stripped by Python str.strip / str.split (ASCII whitespace
plus the ideographic space). -/
def pyIsSpace (c : Char) : Bool :=
  c = ' ' || c = '\t' || c = '\n' || c = '\x0d' || c = '\x0b' || c = '\x0c' ||
  c = '　'

/-- Shorthand turning a string literal into the `List Char` the embedding
works over. -/
def lc (s : String) : List Char := s.toList

/-- Python str.strip with no argument: drop leading and trailing whitespace. -/
def pyStrip (t : List Char) : List Char :=
  ((t.dropWhile pyIsSpace).reverse.dropWhile pyIsSpace).reverse

/-- Python str.rstrip with no argument: drop trailing whitespace. -/
def pyRstrip (t : List Char) : List Char :=
  (t.reverse.dropWhile pyIsSpace).reverse

/-- Python str.strip of the null character, as used by is_speaker_name. -/
def stripNulls (t : List Char) : List Char :=
  ((t.dropWhile (· = '\x00')).reverse.dropWhile (· = '\x00')).reverse

/-- Accumulator pass for pySplit: `acc` holds the current word reversed. -/
def pySplitAux : List Char → List Char → List (List Char)
  | [], acc => if acc.isEmpty then [] else [acc.reverse]
  | c :: rest, acc =>
    if pyIsSpace c then
      if acc.isEmpty then pySplitAux rest []
      else acc.reverse :: pySplitAux rest []
    else pySplitAux rest (c :: acc)

/-- Python str.split with no argument: split on whitespace runs, dropping
empty fields. -/
def pySplit (t : List Char) : List (List Char) :=
  pySplitAux t []

/-- Case-insensitive literal test at the start of `t` (re.match of a plain
literal under IGNORECASE, or one literal step of a larger pattern). -/
def ciStarts (pat t : List Char) : Bool :=
  (pat.map pyLower).isPrefixOf (t.map pyLower)

/-- Case-insensitive whole-string literal test (re.match of an
end-anchored literal under IGNORECASE on stripped text). -/
def ciEq (pat t : List Char) : Bool :=
  (pat.map pyLower) == (t.map pyLower)

/-- Test a predicate on the first character of a list (false when empty). -/
def headPred (p : Char → Bool) : List Char → Bool
  | [] => false
  | c :: _ => p c

/-- Test a predicate on the character at position `n` (a one-character
regex class following an `n`-character literal). -/
def charIdx (t : List Char) (n : Nat) (p : Char → Bool) : Bool :=
  headPred p (t.drop n)

/-- Word boundary after the first `n` characters: end of string or a
non-word character (the trailing backslash-b of a pattern). -/
def wordEndAt (t : List Char) (n : Nat) : Bool :=
  match t.drop n with
  | [] => true
  | c :: _ => !pyIsWordCh c

/-- Scan for a match of `m` at some position whose left neighbour makes a
regex word boundary (re.search of a backslash-b-prefixed pattern).
`prevWord` records whether the previous character is a word character. -/
def searchAux (m : List Char → Bool) (prevWord : Bool) : List Char → Bool
  | [] => false
  | c :: rest =>
    (decide (prevWord ≠ pyIsWordCh c) && m (c :: rest)) ||
    searchAux m (pyIsWordCh c) rest

/-- re.search of a pattern beginning with a word boundary. -/
def searchWB (m : List Char → Bool) (t : List Char) : Bool :=
  searchAux m false t

/-! The TextClassifier rosters and `is_bytecode` (source lines 38-125). -/

/-- The closed set of known English UI choice words (v1.1.13). -/
def ENGLISH_CHOICE_WORDS : List (List Char) :=
  [lc "yes", lc "no", lc "ok", lc "cancel", lc "accept", lc "decline", lc "close"]

/-- The character-ID alternation of BYTECODE_PATTERNS:
(edga|her|zara|ness|pear|rich|rath|elza|haniy|zk)[0-9]+[a-z]*, anchored at
the start, IGNORECASE; the trailing [a-z]* is unconstrained, so a match
needs one of the prefixes followed by a digit. -/
def matchCharIdPattern (t : List Char) : Bool :=
  [lc "edga", lc "her", lc "zara", lc "ness", lc "pear",
   lc "rich", lc "rath", lc "elza", lc "haniy", lc "zk"].any
    (fun a => ciStarts a t && charIdx t a.length isDigitCh)

/-- The anchored pattern @[a-zA-Z0-9_]+$ (a single @-prefixed word). -/
def matchAtWordFull (t : List Char) : Bool :=
  match t with
  | '@' :: c :: rest => (c :: rest).all isAsciiWordCh
  | _ => false

/-- One pass over BYTECODE_PATTERNS with re.match(..., IGNORECASE) on the
stripped text, in source order. -/
def bytecodePatternHit (t : List Char) : Bool :=
  ciStarts (lc "switch") t ||
  ciStarts (lc "case") t ||
  ciStarts (lc "default") t ||
  (ciStarts (lc "bg") t && charIdx t 2 isHexCI) ||
  (headPred (· = '@') t && charIdx t 1 isAsciiWordCh) ||
  matchCharIdPattern t ||
  ciEq (lc "suma") t ||
  ciEq (lc "scene_play") t ||
  ciEq (lc "flg_memory") t ||
  matchAtWordFull t

/-- The per-word test of the lexical density heuristic: starts with @, or
matches [a-z][1,3] entirely, or matches [a-z]+ then digits entirely, or is
shorter than 3 characters (these two inner regexes have no IGNORECASE). -/
def looksBytecodeWord (w : List Char) : Bool :=
  headPred (· = '@') w ||
  (1 ≤ w.length && w.length ≤ 3 && w.all isAsciiLower) ||
  (!(w.takeWhile isAsciiLower).isEmpty &&
    !(w.dropWhile isAsciiLower).isEmpty &&
    (w.dropWhile isAsciiLower).all isDigitCh) ||
  decide (w.length < 3)

/-- Embedding of `is_bytecode` (source lines 94-125).  The float comparison
count/len > 0.85 is modelled by the exact comparison 20*count > 17*len. -/
def is_bytecode (text : List Char) : Bool :=
  let t := pyStrip text
  if ENGLISH_CHOICE_WORDS.contains (t.map pyLower) then false
  else if bytecodePatternHit t then true
  else
    let words := pySplit t
    if words.length > 5 then
      decide ((words.filter looksBytecodeWord).length * 20 > words.length * 17)
    else false

/-- Embedding of `is_name_indicator`: the fixed shape #Name[digits]
matched against the whole stripped text. -/
def is_name_indicator (text : List Char) : Bool :=
  match pyStrip text with
  | '#' :: 'N' :: 'a' :: 'm' :: 'e' :: '[' :: rest =>
    !(rest.takeWhile isDigitCh).isEmpty && rest.dropWhile isDigitCh == [']']
  | _ => false

/-- The closed roster of speaker names (source lines 51-58). -/
def SPEAKER_NAMES : List (List Char) :=
  [lc "pearl", lc "richie", lc "nesso", lc "zara", lc "edgar", lc "elza",
   lc "rath", lc "guillan", lc "arles", lc "henrietta",
   lc "パール", lc "リッチー", lc "ネッソ", lc "ザラ", lc "エドガー",
   lc "エルザ", lc "ラス", lc "ギラン", lc "アルル", lc "ヘンリエッタ"]

/-- Embedding of `is_speaker_name`: strip whitespace, then strip null
padding, lowercase, and test roster membership. -/
def is_speaker_name (text : List Char) : Bool :=
  SPEAKER_NAMES.contains ((stripNulls (pyStrip text)).map pyLower)

/-- Japanese test with the u3000 lower bound used by the assembler
(the condition u3000 <= c <= u9fff). -/
def hasJapanese3000 (t : List Char) : Bool :=
  t.any (fun c => '　' ≤ c && c ≤ '鿿')

/-- Japanese test with the 0x3040 lower bound used by `_is_valid_text`. -/
def hasJapanese3040 (t : List Char) : Bool :=
  t.any (fun c => 0x3040 ≤ c.toNat && c.toNat ≤ 0x9FFF)

/-- Count of alphabetic characters (Python sum of c.isalpha()). -/
def alphaCount (t : List Char) : Nat := (t.filter pyIsAlpha).length

/-- The pattern [A-Z][a-z]+_(bad|good)_end with word boundaries, under
IGNORECASE (both classes become any ASCII letter): matched at one search
position. -/
def matchEndingPattern (s : List Char) : Bool :=
  match s with
  | [] => false
  | c :: rest =>
    isAsciiLetter c &&
    !(rest.takeWhile isAsciiLetter).isEmpty &&
    ((ciStarts (lc "_bad_end") (rest.dropWhile isAsciiLetter) &&
        wordEndAt (rest.dropWhile isAsciiLetter) 8) ||
     (ciStarts (lc "_good_end") (rest.dropWhile isAsciiLetter) &&
        wordEndAt (rest.dropWhile isAsciiLetter) 9))

/-- The anchored pattern [A-Z][a-z]+_[A-Za-z_]+ over the whole string,
under IGNORECASE. -/
def matchCapUnderscore (t : List Char) : Bool :=
  match t with
  | [] => false
  | c :: rest =>
    isAsciiLetter c &&
    !(rest.takeWhile isAsciiLetter).isEmpty &&
    (match rest.dropWhile isAsciiLetter with
     | '_' :: tail => !tail.isEmpty && tail.all (fun x => isAsciiLetter x || x = '_')
     | _ => false)

/-- The anchored pattern [a-z]+ digits+ [a-z]* underscore [a-z]+ over
the whole string, under IGNORECASE (character-variable names such as
raths01ht_kana). -/
def matchVarUnderscore (t : List Char) : Bool :=
  let r1 := t.dropWhile isAsciiLetter
  let r2 := r1.dropWhile isDigitCh
  !(t.takeWhile isAsciiLetter).isEmpty &&
  !(r1.takeWhile isDigitCh).isEmpty &&
  (match r2.dropWhile isAsciiLetter with
   | '_' :: tail => !tail.isEmpty && tail.all isAsciiLetter
   | _ => false)

/-- The anchored pattern [a-z]+ digits+ over the whole string, under
IGNORECASE (codes such as mejo07). -/
def matchLettersDigits (t : List Char) : Bool :=
  !(t.takeWhile isAsciiLetter).isEmpty &&
  !(t.dropWhile isAsciiLetter).isEmpty &&
  (t.dropWhile isAsciiLetter).all isDigitCh

/-- The anchored pattern of 3 to 5 letters over the whole string, under
IGNORECASE (short bytecode identifiers). -/
def matchShortIdent (t : List Char) : Bool :=
  3 ≤ t.length && t.length ≤ 5 && t.all isAsciiLetter

/-- One pass over the `bytecode_patterns` list of `_is_valid_text`
(source lines 1326-1342), each via re.search(..., IGNORECASE), in source
order. -/
def validTextPatternHit (t : List Char) : Bool :=
  searchWB (ciStarts (lc "release_")) t ||
  searchWB (ciStarts (lc "rute_count_")) t ||
  searchWB (fun s => ciStarts (lc "fav") s && charIdx s 3 isAsciiLetter) t ||
  searchWB (ciStarts (lc "lh_sel_")) t ||
  searchWB (fun s => ciStarts (lc "sure") s && charIdx s 4 isDigitCh) t ||
  searchWB (fun s => ciStarts (lc "suma") s && wordEndAt s 4) t ||
  searchWB (ciStarts (lc "memory_")) t ||
  searchWB (ciStarts (lc "collection_link")) t ||
  searchWB (ciStarts (lc "export_data")) t ||
  searchWB (ciStarts (lc "switch")) t ||
  searchWB (ciStarts (lc "scene_play")) t ||
  searchWB (ciStarts (lc "rathl")) t ||
  searchWB (ciStarts (lc "elzal")) t ||
  searchWB (ciStarts (lc "zara0")) t ||
  searchWB (ciStarts (lc "ness0")) t ||
  searchWB (fun s => ciStarts (lc "her") s && charIdx s 3 isDigitCh) t ||
  searchWB (fun s => ciStarts (lc "zk") s && charIdx s 2 isDigitCh) t ||
  searchWB (fun s => ciStarts (lc "bg") s && charIdx s 2 isDigitCh) t ||
  searchWB matchEndingPattern t ||
  searchWB (fun s => ciStarts (lc "trueend") s && wordEndAt s 7) t ||
  matchCapUnderscore t ||
  searchWB (fun s => ciStarts (lc "ef_") s && charIdx s 3 isAsciiWordCh) t ||
  searchWB (fun s => ciStarts (lc "select") s && wordEndAt s 6) t ||
  searchWB (fun s => ciStarts (lc "export_data") s && wordEndAt s 11) t ||
  matchVarUnderscore t ||
  matchLettersDigits t ||
  matchShortIdent t

/-- Embedding of `_is_valid_text` (source lines 1299-1368).  The float
comparisons are modelled exactly (4*count > len for count > len/4, and
10*count > len for count > len/10).  The Python pattern loop returns
False on the first pattern match when the text has no substantial
Japanese content; since the Japanese test does not depend on the pattern,
the loop is equivalent to the single conditional used here. -/
def _is_valid_text (text : List Char) : Bool :=
  if text.isEmpty || (pyStrip text).length < 2 then false
  else if text.contains '�' then false
  else if (text.filter (fun c =>
      c.toNat < 32 && !(c = '\n' || c = '\x0d' || c = '\t'))).length * 4 >
      text.length then false
  else if headPred (· = '@') text && text.length < 5 then false
  else if text.length > 10 && text.count '@' * 10 > text.length then false
  else
    let ts := pyStrip text
    if is_speaker_name ts then true
    else if ENGLISH_CHOICE_WORDS.contains (ts.map pyLower) then true
    else if validTextPatternHit ts && !hasJapanese3040 text then false
    else hasJapanese3040 text || decide (alphaCount text ≥ 2)

/-- One candidate entry (a Python dict in the source).  Missing dict keys
are read through .get with a default in the source; the field defaults
mirror those defaults. -/
structure Entry where
  index : Nat := 0
  type : Nat := 0
  text : List Char := []
  speaker : List Char := []
  size : Nat := 0
  offset : Nat := 0
  is_choice : Bool := false
  choice_count : Nat := 0
  choice_options : List (List Char) := []
deriving DecidableEq, Repr

/-- The sort key of the merger: (index, offset) lexicographically,
non-strict. -/
def mergeLe (a b : Entry) : Prop :=
  a.index < b.index ∨ (a.index = b.index ∧ a.offset ≤ b.offset)

instance : DecidableRel mergeLe := fun a b => by unfold mergeLe; infer_instance

instance : IsTotal Entry mergeLe := ⟨by intro a b; unfold mergeLe; omega⟩

instance : IsTrans Entry mergeLe := ⟨by intro a b c; unfold mergeLe; omega⟩

/-- The merge step of `decompile_full_format` (source lines 1382-1396):
all compact entries, then the padded entries whose index no compact entry
uses, sorted stably by (index, offset).  Python's stable list.sort is
modelled by List.insertionSort, which is stable. -/
def mergeEntries (padded compact : List Entry) : List Entry :=
  List.insertionSort mergeLe
    (compact ++ padded.filter (fun p => !(compact.map Entry.index).contains p.index))

/-- Concrete entries for the merge witness: padded and compact overlap at
index 1 with different texts. -/
def mwPadA : Entry := { index := 1, text := lc "padded one", offset := 5 }

/-- Second padded witness entry, at an index absent from compact. -/
def mwPadB : Entry := { index := 2, text := lc "padded two", offset := 7 }

/-- Compact witness entry sharing index 1 with mwPadA. -/
def mwComp : Entry := { index := 1, text := lc "compact one", offset := 9 }

/-- UTF-8 continuation byte test (0x80-0xBF). -/
def isCont (b : Nat) : Bool := 0x80 ≤ b && b ≤ 0xBF

/-- Admissible second byte of a 3-byte sequence headed by `b`
(0xE0 narrows to 0xA0-0xBF, 0xED to 0x80-0x9F to exclude surrogates). -/
def cont3ok (b b2 : Nat) : Bool :=
  if b = 0xE0 then 0xA0 ≤ b2 && b2 ≤ 0xBF
  else if b = 0xED then 0x80 ≤ b2 && b2 ≤ 0x9F
  else isCont b2

/-- Admissible second byte of a 4-byte sequence headed by `b`
(0xF0 narrows to 0x90-0xBF, 0xF4 to 0x80-0x8F to stay below 0x110000). -/
def cont4ok (b b2 : Nat) : Bool :=
  if b = 0xF0 then 0x90 ≤ b2 && b2 ≤ 0xBF
  else if b = 0xF4 then 0x80 ≤ b2 && b2 ≤ 0x8F
  else isCont b2

/-- bytes.decode('utf-8', errors='replace'): standard UTF-8 decoding where
each maximal invalid subpart becomes one U+FFFD replacement character
(CPython follows the Unicode substitution-of-maximal-subparts rule). -/
def decodeUtf8Replace : List Nat → List Char
  | [] => []
  | b :: rest =>
    if b < 0x80 then Char.ofNat b :: decodeUtf8Replace rest
    else if 0xC2 ≤ b && b ≤ 0xDF then
      match rest with
      | [] => ['�']
      | b2 :: rest2 =>
        if isCont b2 then
          Char.ofNat ((b - 0xC0) * 64 + (b2 - 0x80)) :: decodeUtf8Replace rest2
        else '�' :: decodeUtf8Replace (b2 :: rest2)
    else if 0xE0 ≤ b && b ≤ 0xEF then
      match rest with
      | [] => ['�']
      | b2 :: rest2 =>
        if cont3ok b b2 then
          match rest2 with
          | [] => ['�']
          | b3 :: rest3 =>
            if isCont b3 then
              Char.ofNat ((b - 0xE0) * 4096 + (b2 - 0x80) * 64 + (b3 - 0x80)) ::
                decodeUtf8Replace rest3
            else '�' :: decodeUtf8Replace (b3 :: rest3)
        else '�' :: decodeUtf8Replace (b2 :: rest2)
    else if 0xF0 ≤ b && b ≤ 0xF4 then
      match rest with
      | [] => ['�']
      | b2 :: rest2 =>
        if cont4ok b b2 then
          match rest2 with
          | [] => ['�']
          | b3 :: rest3 =>
            if isCont b3 then
              match rest3 with
              | [] => ['�']
              | b4 :: rest4 =>
                if isCont b4 then
                  Char.ofNat ((b - 0xF0) * 262144 + (b2 - 0x80) * 4096 +
                    (b3 - 0x80) * 64 + (b4 - 0x80)) :: decodeUtf8Replace rest4
                else '�' :: decodeUtf8Replace (b4 :: rest4)
            else '�' :: decodeUtf8Replace (b3 :: rest3)
        else '�' :: decodeUtf8Replace (b2 :: rest2)
    else '�' :: decodeUtf8Replace rest

/-- bytes.rstrip of null bytes, applied to a decoded span before text
decoding. -/
def rstripNullsB (t : List Nat) : List Nat :=
  (t.reverse.dropWhile (· = 0)).reverse

/-- UTF-8 encoded length of one character (for the legacy strategy's
size field, len(text.encode('utf-8'))). -/
def utf8CharLen (c : Char) : Nat :=
  if c.toNat < 0x80 then 1
  else if c.toNat < 0x800 then 2
  else if c.toNat < 0x10000 then 3
  else 4

/-- UTF-8 encoded length of a decoded string. -/
def utf8Length (t : List Char) : Nat := (t.map utf8CharLen).sum

/-- bytes.find: index of the first occurrence of `pat`, if any. -/
def findSub (pat : List Nat) : List Nat → Option Nat
  | [] => if pat.isEmpty then some 0 else none
  | b :: rest =>
    if pat.isPrefixOf (b :: rest) then some 0
    else match findSub pat rest with
      | some n => some (n + 1)
      | none => none

/-- The marker b'GLOBAL_DATA'. -/
def GLOBAL_DATA_MARK : List Nat := [71, 76, 79, 66, 65, 76, 95, 68, 65, 84, 65]

/-- The marker b'CODE_START_'. -/
def CODE_START_MARK : List Nat := [67, 79, 68, 69, 95, 83, 84, 65, 82, 84, 95]

/-- Embedding of `_find_code_start` (source lines 991-1006): default 0x2C,
overridden by 12 past a GLOBAL_DATA marker found at a positive offset,
overridden again by 12 past a CODE_START_ marker found at a positive
offset. -/
def _find_code_start (data : ByteBuf) : Nat :=
  let off1 :=
    match findSub GLOBAL_DATA_MARK data with
    | some g => if g > 0 then g + 12 else 0x2C
    | none => 0x2C
  match findSub CODE_START_MARK data with
  | some c => if c > 0 then c + 12 else off1
  | none => off1

/-- Embedding of `decode_utf8_string` (source lines 809-825): decode up to
the first null byte, reporting the bytes consumed including that null. -/
def decode_utf8_string (data : ByteBuf) (start : Nat) : List Char × Nat :=
  let raw := (data.drop start).takeWhile (fun b => b ≠ 0)
  (decodeUtf8Replace raw, raw.length + 1)

/-- Embedding of the scan loop of `_parse_legacy_utf8` (source lines
1261-1297) from position `pos` with running entry counter `cnt`: skip
null/0xFF bytes, otherwise decode a null-terminated run; keep it when it
has at least 2 characters, tagging speaker names as type 0x02.  The fuel
argument only bounds the recursion; the wrapper supplies one unit per
byte, and the loop guard fails whenever fuel would run out, so the fuel
never cuts the scan short. -/
def parseLegacyFuel (data : ByteBuf) : Nat → Nat → Nat → List Entry
  | 0, _, _ => []
  | fuel + 1, pos, cnt =>
    if pos + 4 < data.length then
      if byteAt data pos = 0 || byteAt data pos = 0xFF then
        parseLegacyFuel data fuel (pos + 1) cnt
      else
        if 2 ≤ (decode_utf8_string data pos).1.length then
          { index := cnt,
            type := if is_speaker_name (decode_utf8_string data pos).1 then 0x02 else 0x04,
            text := (decode_utf8_string data pos).1,
            size := utf8Length (decode_utf8_string data pos).1 } ::
            parseLegacyFuel data fuel (pos + (decode_utf8_string data pos).2) (cnt + 1)
        else parseLegacyFuel data fuel (pos + 1) cnt
    else []

/-- The legacy scan loop from position `pos` (wrapper supplying the
fuel). -/
def parseLegacyFrom (data : ByteBuf) (pos cnt : Nat) : List Entry :=
  parseLegacyFuel data (data.length + 1 - pos) pos cnt

/-- Embedding of `_parse_legacy_utf8`: the scan starts at the detected
code-start offset, not at the beginning of the buffer. -/
def _parse_legacy_utf8 (data : ByteBuf) : List Entry :=
  parseLegacyFrom data (_find_code_start data) 0

/-! The compact extraction strategy (source lines 1149-1253). -/

/-- The valid entry types of the compact strategy (source line 1179). -/
def compactTypes : List Nat :=
  [0x01, 0x02, 0x03, 0x04, 0x05, 0x06, 0x07, 0x08, 0x09, 0x0A, 0x0B, 0x0C,
   0x0D, 0x0E, 0x0F, 0x10, 0x11, 0x12]

/-- Count of null bytes among the (in-range) four bytes starting at `p`,
as the inner null_count loops compute it. -/
def nullCount4 (data : ByteBuf) (p : Nat) : Nat :=
  ((List.range 4).filter
    (fun i => decide (p + i < data.length) && (byteAt data (p + i) == 0))).length

/-- The padding-skip loop after a successful compact entry (source lines
1247-1248), with a fuel bound: one unit per byte suffices since the guard
fails at the end of the buffer. -/
def skipPadF (data : ByteBuf) : Nat → Nat → Nat
  | 0, pos => pos
  | fuel + 1, pos =>
    if pos + 16 < data.length then
      if byteAt data pos = 0 then skipPadF data fuel (pos + 1) else pos
    else pos

/-- The padding-skip loop from `pos` (wrapper supplying the fuel). -/
def skipPadFrom (data : ByteBuf) (pos : Nat) : Nat :=
  skipPadF data (data.length + 1 - pos) pos

/-- The compact strategy's type-0x10 terminator scan (source lines
1199-1216): advance until a null byte that is followed within 12 bytes of
buffer and whose 4-byte neighbourhood holds at least 2 nulls, bounded by
500 bytes.  Fuel form: the loop guard limits the scan to the buffer, so
buffer length plus the 500-byte window bounds the iterations. -/
def scanText16CF (data : ByteBuf) (start : Nat) : Nat → Nat → Nat
  | 0, cur => cur
  | fuel + 1, cur =>
    if cur < data.length ∧ cur - start < 500 then
      if byteAt data cur = 0 then
        if cur + 12 < data.length then
          if 2 ≤ nullCount4 data cur then cur
          else scanText16CF data start fuel (cur + 1)
        else scanText16CF data start fuel (cur + 1)
      else scanText16CF data start fuel (cur + 1)
    else cur

/-- The compact type-0x10 terminator scan (wrapper supplying the fuel). -/
def scanText16C (data : ByteBuf) (start cur : Nat) : Nat :=
  scanText16CF data start (data.length + 501) cur

/-- The recomputed size of a type-0x10 compact entry whose declared size
is a placeholder: distance from the text start to the scanned terminator. -/
def compactSize16 (data : ByteBuf) (pos : Nat) : Nat :=
  scanText16C data (pos + 12) (pos + 12) - (pos + 12)

/-- Embedding of the scan loop of `_parse_compact_format` from position
`pos`: read type, index and size (little-endian u32 at offsets 0, 4, 8),
validate each in the source's order (type membership, index bound 100000,
size in [4,10000] except the type-0x10 placeholder recomputation), decode
the span, keep it when `_is_valid_text` admits it, and resume after the
span and any null padding.  A failed validation advances one byte; a span
reaching past the end of the buffer ends the scan. -/
def parseCompactFuel (data : ByteBuf) : Nat → Nat → List Entry
  | 0, _ => []
  | fuel + 1, pos =>
    if pos + 12 ≤ data.length then
      if compactTypes.contains (u32le data pos) then
        if u32le data (pos + 4) > 100000 then parseCompactFuel data fuel (pos + 1)
        else if u32le data pos = 0x10 then
          if compactSize16 data pos < 1 then parseCompactFuel data fuel (pos + 1)
          else if pos + 12 + compactSize16 data pos > data.length then []
          else
            (if !(decodeUtf8Replace (rstripNullsB ((data.drop (pos + 12)).take (compactSize16 data pos)))).isEmpty &&
                _is_valid_text (decodeUtf8Replace (rstripNullsB ((data.drop (pos + 12)).take (compactSize16 data pos)))) then
              [{ index := u32le data (pos + 4), type := u32le data pos,
                 text := decodeUtf8Replace (rstripNullsB ((data.drop (pos + 12)).take (compactSize16 data pos))),
                 size := compactSize16 data pos, offset := pos }]
             else []) ++ parseCompactFuel data fuel (skipPadFrom data (pos + 12 + compactSize16 data pos))
        else
          if 4 ≤ u32le data (pos + 8) ∧ u32le data (pos + 8) ≤ 10000 then
            if pos + 12 + u32le data (pos + 8) > data.length then []
            else
              (if !(decodeUtf8Replace (rstripNullsB ((data.drop (pos + 12)).take (u32le data (pos + 8))))).isEmpty &&
                  _is_valid_text (decodeUtf8Replace (rstripNullsB ((data.drop (pos + 12)).take (u32le data (pos + 8))))) then
                [{ index := u32le data (pos + 4), type := u32le data pos,
                   text := decodeUtf8Replace (rstripNullsB ((data.drop (pos + 12)).take (u32le data (pos + 8)))),
                   size := u32le data (pos + 8), offset := pos }]
               else []) ++ parseCompactFuel data fuel (skipPadFrom data (pos + 12 + u32le data (pos + 8)))
          else parseCompactFuel data fuel (pos + 1)
      else parseCompactFuel data fuel (pos + 1)
    else []

/-- The compact scan from position `pos` (wrapper supplying the fuel:
the cursor advances at least one byte per iteration, and the loop guard
fails once fewer than 12 bytes remain, so one unit of fuel per remaining
byte suffices and the fuel never cuts the scan short). -/
def parseCompactFrom (data : ByteBuf) (pos : Nat) : List Entry :=
  parseCompactFuel data (data.length + 1 - pos) pos

/-- Embedding of `_parse_compact_format`: the scan starts at offset 0. -/
def _parse_compact_format (data : ByteBuf) : List Entry :=
  parseCompactFrom data 0

/-! The padded extraction strategy (source lines 1008-1147). -/

/-- The valid entry types of the padded strategy (source line 1049). -/
def paddedTypes : List Nat :=
  [0x01, 0x02, 0x03, 0x04, 0x05, 0x06, 0x07, 0x08, 0x09, 0x0A, 0x0B, 0x0C,
   0x0F, 0x10, 0x11, 0x12]

/-- The entry types the padded resynchronisation loop accepts (source
line 1137). -/
def resyncTypes : List Nat :=
  [0x01, 0x02, 0x03, 0x04, 0x05, 0x06, 0x07, 0x08, 0x09, 0x0A, 0x0B, 0x0C,
   0x0D, 0x0E, 0x10, 0x11]

/-- The padded strategy's type-0x10 terminator scan (source lines
1056-1069): advance until a null whose 4-byte neighbourhood holds at
least 2 nulls, bounded by 500 bytes.  Fuel form as for the compact
variant. -/
def scanText16PF (data : ByteBuf) (start : Nat) : Nat → Nat → Nat
  | 0, cur => cur
  | fuel + 1, cur =>
    if cur < data.length ∧ cur - start < 500 then
      if byteAt data cur = 0 then
        if 2 ≤ nullCount4 data cur then cur
        else scanText16PF data start fuel (cur + 1)
      else scanText16PF data start fuel (cur + 1)
    else cur

/-- The padded type-0x10 terminator scan (wrapper supplying the fuel). -/
def scanText16P (data : ByteBuf) (start cur : Nat) : Nat :=
  scanText16PF data start (data.length + 501) cur

/-- The four bytes at `p` are all null. -/
def fourNulls (data : ByteBuf) (p : Nat) : Bool :=
  byteAt data p == 0 && byteAt data (p + 1) == 0 &&
  byteAt data (p + 2) == 0 && byteAt data (p + 3) == 0

/-- The 8-null-padding test shared by the padded scan and its
resynchronisation loop (4 further null bytes after the 4-null padding). -/
def eightNullPad (data : ByteBuf) (pos : Nat) : Bool :=
  decide (pos + 8 ≤ data.length) && fourNulls data (pos + 4)

/-- Type field seen by the resynchronisation loop (at offset 8 under
8-null padding, else at offset 4). -/
def resyncType (data : ByteBuf) (pos : Nat) : Nat :=
  if eightNullPad data pos then u32le data (pos + 8) else u32le data (pos + 4)

/-- Size field seen by the resynchronisation loop (at offset 16 under
8-null padding, else at offset 12). -/
def resyncSize (data : ByteBuf) (pos : Nat) : Nat :=
  if eightNullPad data pos then u32le data (pos + 16) else u32le data (pos + 12)

/-- The padded strategy's resynchronisation loop (source lines
1111-1141): advance to the next 4-null (or 8-null) padding followed by an
acceptable type whose size field is plausible.  Fuel form: one unit per
byte suffices since the guard fails at the end of the buffer. -/
def resyncF (data : ByteBuf) : Nat → Nat → Nat
  | 0, pos => pos
  | fuel + 1, pos =>
    if pos + 24 < data.length then
      if fourNulls data pos then
        if resyncTypes.contains (resyncType data pos) then
          if resyncType data pos = 0x10 ∨
              (1 ≤ resyncSize data pos ∧ resyncSize data pos ≤ 10000) then pos
          else resyncF data fuel (pos + 1)
        else resyncF data fuel (pos + 1)
      else resyncF data fuel (pos + 1)
    else pos

/-- The resynchronisation loop from `pos` (wrapper supplying the fuel). -/
def resyncPadded (data : ByteBuf) (pos : Nat) : Nat :=
  resyncF data (data.length + 1 - pos) pos

/-- Offset of the header fields past the padding: 8 under 8-null padding,
else 4 (the padding_offset variable of the source). -/
def paddedPO (data : ByteBuf) (pos : Nat) : Nat :=
  if eightNullPad data pos then 8 else 4

/-- The recomputed size of a type-0x10 padded entry (distance from the
text start to the scanned terminator). -/
def paddedSize16 (data : ByteBuf) (pos : Nat) : Nat :=
  scanText16P data (pos + paddedPO data pos + 12) (pos + paddedPO data pos + 12) -
    (pos + paddedPO data pos + 12)

/-- Embedding of the scan loop of `_parse_padded_format` from position
`pos`: find 4 (or 8) bytes of null padding, read type, index and size
after it, validate in the source's order (type membership, size in
[1,10000] or the type-0x10 recomputation, index bound 100000), decode the
span, keep it when `_is_valid_text` admits it, and resynchronise.  A
failed validation advances one byte; a span reaching past the end of the
buffer ends the scan. -/
def parsePaddedFuel (data : ByteBuf) : Nat → Nat → List Entry
  | 0, _ => []
  | fuel + 1, pos =>
    if pos + 24 < data.length then
      if fourNulls data pos then
        if paddedTypes.contains (u32le data (pos + paddedPO data pos)) then
          if u32le data (pos + paddedPO data pos) = 0x10 then
            if paddedSize16 data pos < 1 then parsePaddedFuel data fuel (pos + 1)
            else if u32le data (pos + paddedPO data pos + 4) > 100000 then
              parsePaddedFuel data fuel (pos + 1)
            else if pos + paddedPO data pos + 12 + paddedSize16 data pos > data.length then []
            else
              (if !(decodeUtf8Replace (rstripNullsB
                    ((data.drop (pos + paddedPO data pos + 12)).take (paddedSize16 data pos)))).isEmpty &&
                  _is_valid_text (decodeUtf8Replace (rstripNullsB
                    ((data.drop (pos + paddedPO data pos + 12)).take (paddedSize16 data pos)))) then
                [{ index := u32le data (pos + paddedPO data pos + 4),
                   type := u32le data (pos + paddedPO data pos),
                   text := decodeUtf8Replace (rstripNullsB
                     ((data.drop (pos + paddedPO data pos + 12)).take (paddedSize16 data pos))),
                   size := paddedSize16 data pos, offset := pos }]
               else []) ++
                parsePaddedFuel data fuel (resyncPadded data (pos + paddedPO data pos + 12 + paddedSize16 data pos))
          else
            if 1 ≤ u32le data (pos + paddedPO data pos + 8) ∧
                u32le data (pos + paddedPO data pos + 8) ≤ 10000 then
              if u32le data (pos + paddedPO data pos + 4) > 100000 then
                parsePaddedFuel data fuel (pos + 1)
              else if pos + paddedPO data pos + 12 + u32le data (pos + paddedPO data pos + 8) >
                  data.length then []
              else
                (if !(decodeUtf8Replace (rstripNullsB ((data.drop (pos + paddedPO data pos + 12)).take
                      (u32le data (pos + paddedPO data pos + 8))))).isEmpty &&
                    _is_valid_text (decodeUtf8Replace (rstripNullsB
                      ((data.drop (pos + paddedPO data pos + 12)).take
                        (u32le data (pos + paddedPO data pos + 8))))) then
                  [{ index := u32le data (pos + paddedPO data pos + 4),
                     type := u32le data (pos + paddedPO data pos),
                     text := decodeUtf8Replace (rstripNullsB
                       ((data.drop (pos + paddedPO data pos + 12)).take
                         (u32le data (pos + paddedPO data pos + 8)))),
                     size := u32le data (pos + paddedPO data pos + 8), offset := pos }]
                 else []) ++
                  parsePaddedFuel data fuel (resyncPadded data
                    (pos + paddedPO data pos + 12 + u32le data (pos + paddedPO data pos + 8)))
            else parsePaddedFuel data fuel (pos + 1)
        else parsePaddedFuel data fuel (pos + 1)
      else parsePaddedFuel data fuel (pos + 1)
    else []

/-- The padded scan from position `pos` (wrapper supplying the fuel: the
cursor advances at least one byte per iteration and the loop guard fails
once 24 or fewer bytes remain, so one unit of fuel per remaining byte
suffices and the fuel never cuts the scan short). -/
def parsePaddedFrom (data : ByteBuf) (pos : Nat) : List Entry :=
  parsePaddedFuel data (data.length + 1 - pos) pos

/-- Embedding of `_parse_padded_format`: the scan starts at offset 0. -/
def _parse_padded_format (data : ByteBuf) : List Entry :=
  parsePaddedFrom data 0

/-! Claims C5 and C6: behaviour of the scans on validation failure, and
coverage of the buffer by the three strategies. -/

/-- Local validation failure of the compact scan at `pos`: a candidate is
present (12 header bytes fit) but the tag, index, or size check fails.
The span-overrun case is excluded: the code ends the scan there. -/
def compactValidationFail (data : ByteBuf) (pos : Nat) : Prop :=
  pos + 12 ≤ data.length ∧
  (compactTypes.contains (u32le data pos) = false ∨
   (compactTypes.contains (u32le data pos) = true ∧
     u32le data (pos + 4) > 100000) ∨
   (compactTypes.contains (u32le data pos) = true ∧
     ¬ u32le data (pos + 4) > 100000 ∧
     u32le data pos = 0x10 ∧ compactSize16 data pos < 1) ∨
   (compactTypes.contains (u32le data pos) = true ∧
     ¬ u32le data (pos + 4) > 100000 ∧ ¬ u32le data pos = 0x10 ∧
     ¬ (4 ≤ u32le data (pos + 8) ∧ u32le data (pos + 8) ≤ 10000)))

/-- Local validation failure of the padded scan at `pos`: null padding and
a candidate header are present but the tag, size, or index check fails.
The span-overrun case is excluded: the code ends the scan there. -/
def paddedValidationFail (data : ByteBuf) (pos : Nat) : Prop :=
  pos + 24 < data.length ∧ fourNulls data pos = true ∧
  (paddedTypes.contains (u32le data (pos + paddedPO data pos)) = false ∨
   (paddedTypes.contains (u32le data (pos + paddedPO data pos)) = true ∧
     u32le data (pos + paddedPO data pos) = 0x10 ∧ paddedSize16 data pos < 1) ∨
   (paddedTypes.contains (u32le data (pos + paddedPO data pos)) = true ∧
     u32le data (pos + paddedPO data pos) = 0x10 ∧ ¬ paddedSize16 data pos < 1 ∧
     u32le data (pos + paddedPO data pos + 4) > 100000) ∨
   (paddedTypes.contains (u32le data (pos + paddedPO data pos)) = true ∧
     ¬ u32le data (pos + paddedPO data pos) = 0x10 ∧
     ¬ (1 ≤ u32le data (pos + paddedPO data pos + 8) ∧
        u32le data (pos + paddedPO data pos + 8) ≤ 10000)) ∨
   (paddedTypes.contains (u32le data (pos + paddedPO data pos)) = true ∧
     ¬ u32le data (pos + paddedPO data pos) = 0x10 ∧
     (1 ≤ u32le data (pos + paddedPO data pos + 8) ∧
      u32le data (pos + paddedPO data pos + 8) ≤ 10000) ∧
     u32le data (pos + paddedPO data pos + 4) > 100000))

/-- C5 counterexample buffer: a candidate compact header at offset 0 with
valid tag 4, index 0 and size 9000 whose span overruns the 36-byte
buffer, followed at offset 12 by a complete valid entry. -/
def c5buf : ByteBuf :=
  [4, 0, 0, 0, 0, 0, 0, 0, 0x28, 0x23, 0, 0,
   4, 0, 0, 0, 1, 0, 0, 0, 12, 0, 0, 0,
   72, 101, 108, 108, 111, 32, 116, 104, 101, 114, 101, 33]

/-- Compact witness buffer for the one-byte-retry theorem: 12 bytes whose
tag 0 is invalid. -/
def c5wC : ByteBuf := [0, 0, 0, 0, 0, 0, 0, 0, 0, 0, 0, 0]

/-- Padded witness buffer for the one-byte-retry theorem: 26 null bytes,
whose padding is present but whose tag 0 is invalid. -/
def c5wP : ByteBuf := List.replicate 26 0

/-- C6 counterexample buffer: the fragment "Hi!" at offset 0, followed by
a CODE_START_ marker and a trailing null. -/
def c6buf : ByteBuf := [72, 105, 33, 0] ++ CODE_START_MARK ++ [0]

instance : Inhabited Entry := ⟨{}⟩

/-- Embedding of `is_choice_candidate`: a short Japanese option-shaped
text (or, for type 0x02 without Japanese, one of the known English UI
words), not a speaker name, not bytecode, not a question, not a
same-vowel interjection or pure punctuation, and without terminal
punctuation.  The source's endswith check for the two-character question
ending is subsumed by the endswith check for the question mark itself. -/
def is_choice_candidate (entry : Entry) : Bool :=
  let text := pyStrip entry.text
  if text.length < 2 || 10 < text.length then false
  else if entry.type = 0x02 && !hasJapanese3000 text then
    ENGLISH_CHOICE_WORDS.contains (text.map pyLower)
  else if !hasJapanese3000 text then false
  else if is_speaker_name text then false
  else if is_bytecode text then false
  else if text.getLast? = some '？' then false
  else if (match text with
           | [] => false
           | c :: rest => rest.all (· = c) &&
               (c = 'あ' || c = 'い' || c = 'う' || c = 'え' || c = 'お')) then false
  else if !text.isEmpty && text.all (fun c => c = '。' || c = '！' || c = '？') then false
  else if (match text.getLast? with
           | some c => c = '。' || c = '！' || c = '』' || c = '）' || c = '」'
           | none => false) then false
  else true

/-- Separator join (the Python str.join). -/
def joinSep (sep : List Char) : List (List Char) → List Char
  | [] => []
  | [x] => x
  | x :: y :: rest => x ++ sep ++ joinSep sep (y :: rest)

/-- Greedy clustering: each cluster is a first element plus the following
elements whose index lies within 50 of it (the grouping loop of
`group_related_choices`, lines 282-326; its advance
`i = j if j > i + 1 else i + 1` always moves past the whole group, and
the difference test `next - current <= 50` over Python ints is the
inequality `next <= current + 50` over naturals).  Fuel form, one unit
per element. -/
def clusterF (idx : α → Nat) : Nat → List α → List (List α)
  | 0, _ => []
  | _ + 1, [] => []
  | fuel + 1, c :: rest =>
    (c :: rest.takeWhile (fun e => idx e ≤ idx c + 50)) ::
      clusterF idx fuel (rest.dropWhile (fun e => idx e ≤ idx c + 50))

/-- Greedy clustering (wrapper supplying the fuel). -/
def clusterGreedy (idx : α → Nat) (l : List α) : List (List α) :=
  clusterF idx l.length l

/-- The synthetic combined-choice entry built from a converted cluster
(source lines 304-322): index of the first member, texts joined with
' / ', type 0x02, the choice metadata set. -/
def mkCombinedChoice (group : List Entry) : Entry :=
  { index := (group.headD default).index,
    text := joinSep (lc " / ") (group.map (fun e => pyStrip e.text)),
    speaker := [],
    type := 0x02,
    is_choice := true,
    choice_count := group.length,
    choice_options := group.map (fun e => pyStrip e.text) }

/-- The ChoiceGrouper's sort key: the entry index alone. -/
def idxLe (a b : Entry) : Prop := a.index ≤ b.index

instance : DecidableRel idxLe := fun a b => by unfold idxLe; infer_instance

instance : IsTotal Entry idxLe := ⟨by intro a b; unfold idxLe; omega⟩

instance : IsTrans Entry idxLe := ⟨by intro a b c; unfold idxLe; omega⟩

/-- The position-tagged choice candidates of an entry list (the
choice_candidates scan of `group_related_choices`; Python marks member
dicts by object identity, which the position tag models). -/
def choiceCands (entries : List Entry) : List (Nat × Entry) :=
  entries.enum.filter (fun pe => is_choice_candidate pe.2)

/-- The greedy candidate clusters of an entry list. -/
def choiceClusters (entries : List Entry) : List (List (Nat × Entry)) :=
  clusterGreedy (fun pe => pe.2.index) (choiceCands entries)

/-- The clusters of 2 to 5 members, which are converted. -/
def convClusters (entries : List Entry) : List (List (Nat × Entry)) :=
  (choiceClusters entries).filter (fun g => decide (2 ≤ g.length ∧ g.length ≤ 5))

/-- Positions marked for removal (the _remove flags). -/
def removedPos (entries : List Entry) : List Nat :=
  ((convClusters entries).map (fun g => g.map Prod.fst)).flatten

/-- Entries that survive the removal, in their original order. -/
def keptEntries (entries : List Entry) : List Entry :=
  (entries.enum.filter (fun pe => !(removedPos entries).contains pe.1)).map Prod.snd

/-- The synthetic combined entries, one per converted cluster. -/
def groupedEntries (entries : List Entry) : List Entry :=
  (convClusters entries).map (fun g => mkCombinedChoice (g.map Prod.snd))

/-- Embedding of `group_related_choices` (source lines 260-335): no
candidates returns the input unchanged; otherwise candidates are
clustered greedily, clusters of 2 to 5 members are marked for removal
and replaced by one synthetic entry each, and the kept entries plus the
synthetic ones are sorted stably by index.  Python's stable list.sort is
modelled by the stable List.insertionSort. -/
def group_related_choices (entries : List Entry) : List Entry :=
  if (choiceCands entries).isEmpty then entries
  else List.insertionSort idxLe (keptEntries entries ++ groupedEntries entries)

/-- The combined choice entry as the specification describes it: one
synthetic Choice entry whose choice_options is the ordered candidate
texts and whose text is their join with the separator. -/
def specChoice (i : Nat) (opts : List (List Char)) : Entry :=
  { index := i, text := joinSep (lc " / ") opts, speaker := [], type := 0x02,
    is_choice := true, choice_count := opts.length, choice_options := opts }

/-- What remains of a pass-1 cluster in the grouped output: a converted
cluster leaves its synthetic entry (when that entry is itself a choice
candidate), an unconverted cluster leaves its members. -/
def clusterResidue (g : List (Nat × Entry)) : List Entry :=
  if 2 ≤ g.length ∧ g.length ≤ 5 then
    List.filter is_choice_candidate [mkCombinedChoice (g.map Prod.snd)]
  else g.map Prod.snd

/-- The unconverted half of the residue. -/
def unconvResidue (g : List (Nat × Entry)) : List Entry :=
  if 2 ≤ g.length ∧ g.length ≤ 5 then [] else g.map Prod.snd

/-- The converted half of the residue. -/
def convResidue (g : List (Nat × Entry)) : List Entry :=
  if 2 ≤ g.length ∧ g.length ≤ 5 then
    List.filter is_choice_candidate [mkCombinedChoice (g.map Prod.snd)]
  else []

/-- Window-separated block structure: each nonempty block has an anchor
index attained inside it, all its members lie within 50 of the anchor,
and all members of later blocks lie beyond the anchor's window. -/
def BlocksOK : List (List Entry) → Prop
  | [] => True
  | B :: Bs =>
    (B ≠ [] → ∃ a, (∃ e ∈ B, e.index = a) ∧
      (∀ e ∈ B, a ≤ e.index ∧ e.index ≤ a + 50) ∧
      ∀ x ∈ Bs.flatten, a + 50 < x.index) ∧
    BlocksOK Bs

/-- A short Japanese answer entry used to probe the grouping pass. -/
def c4entry (i : Nat) : Entry :=
  { index := i, text := lc "はい" }

/-- Six candidate entries whose index order differs from their list
order: the first pass sees one oversized cluster, re-sorts, and the
second pass then converts a five-member cluster. -/
def c4s : List Entry :=
  [c4entry 100, c4entry 30, c4entry 35, c4entry 40, c4entry 45, c4entry 50]

/-- The sorted probe list: grouping converts a five-member cluster, and
a second pass leaves the result unchanged. -/
def c4w : List Entry :=
  [c4entry 30, c4entry 35, c4entry 40, c4entry 45, c4entry 50, c4entry 100]

/-- An entry too long to be a choice candidate. -/
def c8nc : Entry :=
  { index := 500, text := lc "................" }

/-- Two close candidates and one non-candidate: grouping converts the
pair into one synthetic choice entry and passes the rest through. -/
def c8w : List Entry :=
  [c4entry 10, c4entry 20, c8nc]

/-- Python substring membership (the `in` operator on str). -/
def hasSubstr (pat : List Char) : List Char → Bool
  | [] => pat.isPrefixOf []
  | c :: rest => pat.isPrefixOf (c :: rest) || hasSubstr pat rest

/-- Count of ASCII alphabetic characters (the assembler's
`c.isalpha() and ord(c) < 128`). -/
def asciiAlphaCount (t : List Char) : Nat :=
  (t.filter (fun c => pyIsAlpha c && decide (c.toNat < 128))).length

/-- The assembler's terminal-punctuation test (source lines 392-397 and
471-477): after rstrip, ends with . ! ? 。 ！ or U+FF0F, but not with an
ASCII or fullwidth ellipsis.  The source writes the escape for U+FF0F
(fullwidth solidus), not the fullwidth question mark. -/
def ends_with_punct (txt : List Char) : Bool :=
  let st := pyRstrip txt
  (st.getLast? == some '.' || st.getLast? == some '!' || st.getLast? == some '?' ||
   st.getLast? == some '。' || st.getLast? == some '！' || st.getLast? == some '／') &&
  !((lc "...").isSuffixOf st) && !((lc "。。。").isSuffixOf st)

/-- The assembler's conditional space join: append a space first unless
the accumulated text is empty or already ends in space or newline. -/
def joinPart (acc part : List Char) : List Char :=
  if acc ≠ [] ∧ acc.getLast? ≠ some ' ' ∧ acc.getLast? ≠ some '\n' then
    acc ++ ' ' :: part
  else acc ++ part

/-- Joining a speaker run's collected parts (source lines 495-500). -/
def joinParts : List (List Char) → List Char
  | [] => []
  | p :: rest => rest.foldl joinPart p

/-- The leading characters of a first-person contraction, built without
a literal apostrophe. -/
def iAmPrefix : List Char := ['I', Char.ofNat 39, 'm']

/-- Embedding of `should_combine_entries` (source lines 138-191):
linguistic continuation test between an accumulated text and the next
fragment. -/
def should_combine_entries (prev_text curr_text : List Char) : Bool :=
  if is_bytecode curr_text || is_name_indicator curr_text then false
  else if hasSubstr (lc " [") prev_text && (pyRstrip prev_text).getLast? == some ']' then
    false
  else
    let prev_has_japanese := hasJapanese3000 prev_text
    let prev_has_english := decide (2 < alphaCount prev_text)
    let curr_has_japanese := hasJapanese3000 curr_text
    let curr_has_english := decide (2 < alphaCount curr_text)
    if curr_has_japanese && curr_has_english then false
    else if prev_has_japanese && curr_has_english && !curr_has_japanese then false
    else if prev_has_english && curr_has_japanese && !curr_has_english then false
    else if decide (3 < prev_text.length) &&
        !(prev_text.any (fun c => c == '。' || c == '！' || c == '？' || c == '.' ||
          c == '!' || c == '?' || c == '"' || c == '』' || c == '）' || c == ']' ||
          c == '…')) then true
    else if headPred (fun c => isAsciiLower c || c == '(' || c == '「' || c == '『' ||
        c == '（') curr_text then true
    else if decide (prev_text.count ')' + prev_text.count '）' <
        prev_text.count '(' + prev_text.count '（') then true
    else false

/-- The quote-closure lookahead of the speaker run (source lines
408-441): after a part ending in terminal punctuation leaves an odd
double-quote count, keep consuming narration (types 0x0C/0x0D) and
dialogue (types 0x04/0x06/0x03/0x0F) entries until the joined parts
have an even quote count, a capitalised quoteless entry appears, or an
entry of another type appears.  Returns the scan position and the
collected parts. -/
def speakerQuoteLoop (entries : List Entry) :
    Nat → Nat → List (List Char) → Nat × List (List Char)
  | 0, i, parts => (i, parts)
  | fuel + 1, i, parts =>
    if i < entries.length then
      let e := entries.getD i default
      if e.type == 0x0C || e.type == 0x0D then
        speakerQuoteLoop entries fuel (i + 1) (parts ++ [e.text])
      else if e.type == 0x04 || e.type == 0x06 || e.type == 0x03 || e.type == 0x0F then
        if 0 < e.text.count '"' then
          let parts2 := parts ++ [e.text]
          if (joinSep (lc " ") parts2).count '"' % 2 == 0 then (i + 1, parts2)
          else speakerQuoteLoop entries fuel (i + 1) parts2
        else if !e.text.isEmpty && !pyIsUpper (e.text.headD ' ') then
          speakerQuoteLoop entries fuel (i + 1) (parts ++ [e.text])
        else (i, parts)
      else (i, parts)
    else (i, parts)

/-- The dialogue-collection loop of a speaker run (source lines
357-491): consume continuation-typed entries after a speaker name until
a non-continuation type, a name indicator, a structural marker, or
terminal punctuation with balanced quotes is reached.  Returns the scan
position and the collected parts. -/
def speakerDialogueLoop (entries : List Entry) :
    Nat → Nat → List (List Char) → Nat × List (List Char)
  | 0, i, parts => (i, parts)
  | fuel + 1, i, parts =>
    if i < entries.length then
      let e := entries.getD i default
      if !([0x01, 0x03, 0x04, 0x05, 0x06, 0x08, 0x09, 0x0A, 0x0B, 0x0C, 0x0D,
            0x0E, 0x0F, 0x10, 0x11].contains e.type) then (i, parts)
      else if is_name_indicator e.text then (i, parts)
      else if (lc "\"--").isPrefixOf (pyStrip e.text) then (i, parts)
      else if ends_with_punct e.text then
        let parts2 := parts ++ [e.text]
        if (joinSep (lc " ") parts2).count '"' % 2 == 1 then
          speakerQuoteLoop entries fuel (i + 1) parts2
        else (i + 1, parts2)
      else if is_bytecode e.text then
        speakerDialogueLoop entries fuel (i + 1) parts
      else
        let next_has_japanese := hasJapanese3000 e.text
        let next_has_english := decide (2 < alphaCount e.text)
        if next_has_japanese && next_has_english then (i, parts)
        else if !parts.isEmpty &&
            (let comb := joinSep (lc " ") parts
             let comb_has_japanese := hasJapanese3000 comb
             let comb_has_english := decide (2 < alphaCount comb)
             (comb_has_japanese && next_has_english && !next_has_japanese) ||
               (comb_has_english && next_has_japanese && !next_has_english)) then
          (i, parts)
        else if !parts.isEmpty && !e.text.isEmpty &&
            ends_with_punct (parts.getLastD []) &&
            !((joinSep (lc " ") parts).count '"' % 2 == 1) &&
            pyIsUpper (e.text.headD ' ') &&
            !(iAmPrefix.isPrefixOf e.text) && !((lc "I ").isPrefixOf e.text) then
          (i, parts)
        else speakerDialogueLoop entries fuel (i + 1) (parts ++ [e.text])
    else (i, parts)

/-- The backward speaker search of the type 0x07 branch (source lines
593-610): walk back to the nearest type 0x02/0x03 entry; a speaker name
there attaches, anything else (or an intervening dialogue or narration
entry) stops the search.  The argument is one past the index to
examine. -/
def lookbackSpeaker (entries : List Entry) : Nat → Option (List Char)
  | 0 => none
  | j + 1 =>
    let p := entries.getD j default
    if p.type == 0x02 || p.type == 0x03 then
      if is_speaker_name p.text then some p.text else none
    else if [0x04, 0x05, 0x06, 0x07, 0x0D, 0x0E, 0x12].contains p.type then none
    else lookbackSpeaker entries j

/-- The forward combining scan of the type 0x07 branch (source lines
612-656): consume continuation-typed entries (same index required only
between two type 0x07 entries), skipping bytecode without advancing the
main cursor.  Returns the combined text and how many entries the main
cursor must additionally skip. -/
def lookahead07 (entries : List Entry) (curIdx : Nat) :
    Nat → Nat → List Char → Nat → List Char × Nat
  | 0, _, acc, iAdd => (acc, iAdd)
  | fuel + 1, j, acc, iAdd =>
    if j < entries.length then
      let e := entries.getD j default
      if !([0x03, 0x04, 0x05, 0x06, 0x07, 0x08, 0x09, 0x0A, 0x0B, 0x0C, 0x0D,
            0x0E].contains e.type) then (acc, iAdd)
      else if e.type == 0x07 && e.index != curIdx then (acc, iAdd)
      else if is_name_indicator e.text then (acc, iAdd)
      else if is_bytecode e.text then lookahead07 entries curIdx fuel (j + 1) acc iAdd
      else lookahead07 entries curIdx fuel (j + 1) (joinPart acc e.text) (iAdd + 1)
    else (acc, iAdd)

/-- The backward name-indicator search of the general dialogue branch
(source lines 675-698): keep the last #Name[X] seen while walking back,
stopping at a previous dialogue entry.  The argument is one past the
index to examine. -/
def lookbackName (entries : List Entry) : Nat → Option (List Char) → Option (List Char)
  | 0, acc => acc
  | j + 1, acc =>
    let p := entries.getD j default
    if is_name_indicator p.text then lookbackName entries j (some p.text)
    else if [0x04, 0x05, 0x06, 0x07, 0x08, 0x09, 0x0A, 0x0B, 0x0C, 0x0D, 0x0E,
        0x0F, 0x10, 0x11].contains p.type then acc
    else lookbackName entries j acc

/-- The forward combining scan of the general dialogue branch (source
lines 715-767): consume continuation-typed entries, skipping bytecode
(except types 0x03/0x0A), refusing language switches, and otherwise
deferring to `should_combine_entries`.  Returns the combined text and
the next main-cursor position. -/
def lookaheadDia (entries : List Entry) : Nat → Nat → List Char → List Char × Nat
  | 0, j, acc => (acc, j)
  | fuel + 1, j, acc =>
    if j < entries.length then
      let e := entries.getD j default
      if !([0x01, 0x03, 0x04, 0x05, 0x06, 0x07, 0x08, 0x09, 0x0A, 0x0B, 0x0C,
            0x0D, 0x0E, 0x0F, 0x10, 0x11].contains e.type) then (acc, j)
      else if is_name_indicator e.text then (acc, j)
      else if !([0x03, 0x0A].contains e.type) && is_bytecode e.text then
        lookaheadDia entries fuel (j + 1) acc
      else
        let comb_has_japanese := hasJapanese3000 acc
        let comb_has_english := decide (2 < asciiAlphaCount acc)
        let next_has_japanese := hasJapanese3000 e.text
        let next_has_english := decide (2 < asciiAlphaCount e.text)
        if comb_has_japanese && next_has_english && !next_has_japanese then (acc, j)
        else if comb_has_english && next_has_japanese && !next_has_english then (acc, j)
        else if should_combine_entries acc e.text then
          lookaheadDia entries fuel (j + 1) (joinPart acc e.text)
        else (acc, j)
    else (acc, j)

/-- Embedding of the main loop of `combine_dialogue_entries` (source
lines 337-805): one fuel unit per iteration of the outer while loop.
Type 0x02/0x03 speaker names open a dialogue run; other 0x02/0x03 text
is kept when it is short Japanese or non-bytecode text; 0x12 is
speakerless narration; 0x01 keeps only known English choice words
(retagged 0x02); 0x07 combines forward with an optional looked-back
speaker; the remaining dialogue types look back for a #Name[X]
indicator and combine forward; unknown types are kept when
substantial. -/
def combineF (entries : List Entry) : Nat → Nat → List Entry
  | 0, _ => []
  | fuel + 1, i =>
    if i < entries.length then
      let current := entries.getD i default
      let ct := current.text
      if current.type == 0x02 || current.type == 0x03 then
        if is_speaker_name ct then
          let r := speakerDialogueLoop entries (entries.length + 1) (i + 1) []
          if r.2.isEmpty then combineF entries fuel r.1
          else
            { index := current.index, text := joinParts r.2,
              speaker := ct, type := 0x04 } :: combineF entries fuel r.1
        else
          if 2 ≤ (pyStrip ct).length && hasJapanese3000 ct && !is_bytecode ct then
            { index := current.index, text := ct, speaker := [],
              type := current.type } :: combineF entries fuel (i + 1)
          else if is_name_indicator ct then combineF entries fuel (i + 1)
          else if !is_bytecode ct then
            { index := current.index, text := ct, speaker := [],
              type := current.type } :: combineF entries fuel (i + 1)
          else combineF entries fuel (i + 1)
      else if current.type == 0x12 then
        if is_bytecode ct then combineF entries fuel (i + 1)
        else
          { index := current.index, text := ct, speaker := [],
            type := 0x12 } :: combineF entries fuel (i + 1)
      else if current.type == 0x01 then
        if !ENGLISH_CHOICE_WORDS.contains (ct.map pyLower) then
          combineF entries fuel (i + 1)
        else
          { index := current.index, text := ct, speaker := [],
            type := 0x02 } :: combineF entries fuel (i + 1)
      else if current.type == 0x07 then
        if is_bytecode ct then combineF entries fuel (i + 1)
        else
          let spk := lookbackSpeaker entries i
          let r := lookahead07 entries current.index (entries.length + 1) (i + 1) ct 0
          { index := current.index, text := r.1,
            speaker := (match spk with | some n => n | none => []),
            type := 0x07 } :: combineF entries fuel (i + r.2 + 1)
      else if [0x04, 0x05, 0x06, 0x07, 0x08, 0x09, 0x0A, 0x0B, 0x0C, 0x0D, 0x0E,
          0x0F, 0x10, 0x11].contains current.type then
        let nameInd := lookbackName entries i none
        if is_bytecode ct then combineF entries fuel (i + 1)
        else if (pyStrip ct).length < 3 &&
            !(2 ≤ (pyStrip ct).length && hasJapanese3000 ct) then
          combineF entries fuel (i + 1)
        else
          let r := lookaheadDia entries (entries.length + 1) (i + 1) ct
          let combined := (match nameInd with
            | some n => n ++ '\n' :: r.1
            | none => r.1)
          if hasJapanese3000 combined || decide (3 < alphaCount combined) then
            { index := current.index, text := combined,
              speaker := (match nameInd with | some n => n | none => []),
              type := current.type } :: combineF entries fuel r.2
          else combineF entries fuel r.2
      else
        if is_bytecode ct then combineF entries fuel (i + 1)
        else if 3 ≤ (pyStrip ct).length ||
            (2 ≤ (pyStrip ct).length && hasJapanese3000 ct) then
          { index := current.index, text := ct, speaker := [],
            type := current.type } :: combineF entries fuel (i + 1)
        else combineF entries fuel (i + 1)
    else []

/-- Embedding of `combine_dialogue_entries`: run the combining loop from
the start, then group related choice options. -/
def combine_dialogue_entries (entries : List Entry) : List Entry :=
  group_related_choices (combineF entries (entries.length + 1) 0)

/-- The C7 scenario: a speaker entry followed by the two continuation
fragments, each carrying a dialogue tag. -/
def c7entries : List Entry :=
  [{ index := 1, type := 0x02, text := lc "Pearl" },
   { index := 2, type := 0x04, text := lc "He said \"hello" },
   { index := 3, type := 0x04, text := lc "world\" and left." }]

/-- C2: the format detector returns "full" exactly when the buffer begins
with the 6-byte magic tag; otherwise it returns "dialogue" exactly when the
buffer is at least 8 bytes long and its first 4 bytes, read little-endian,
are strictly below 10000; in every other case it returns "unknown". -/
theorem C2_detect_format (data : ByteBuf) :
    detect_format data = detectFormatSpec data ∧
    (detect_format data = "full" ↔ data.take 6 = stcm2lMagic) ∧
    (detect_format data = "dialogue" ↔
      data.take 6 ≠ stcm2lMagic ∧ 8 ≤ data.length ∧ u32le data 0 < 10000) ∧
    (detect_format data = "unknown" ↔
      data.take 6 ≠ stcm2lMagic ∧ ¬ (8 ≤ data.length ∧ u32le data 0 < 10000)) := by
  have hspec : detect_format data = detectFormatSpec data := by
    unfold detect_format detectFormatSpec
    rcases data with _ | ⟨b, rest⟩
    · simp [stcm2lMagic]
    · simp
  refine ⟨hspec, ?_, ?_, ?_⟩ <;> rw [hspec] <;> unfold detectFormatSpec <;>
    split <;> try split
  all_goals simp_all

/-! Character-level helpers modelling the Python string primitives used by
the classifier.  `pyIsAlpha` models `str.isalpha` on the character
repertoire this program manipulates (ASCII letters, kana, CJK ideographs);
`pyLower` models `str.lower` (ASCII case folding; the kana and ideographs
in the rosters are unaffected by Python's lower). -/

/-- C10: the bytecode classifier anchors its patterns at the start of the
trimmed text, so any text whose trimmed form begins with switch, case or
default (case-insensitively) and whose lowered trimmed form is not one of
the seven UI choice words is classified as bytecode. -/
theorem C10_bytecode_start_anchored (t : List Char)
    (h1 : ciStarts (lc "switch") (pyStrip t) = true ∨
          ciStarts (lc "case") (pyStrip t) = true ∨
          ciStarts (lc "default") (pyStrip t) = true)
    (h2 : ENGLISH_CHOICE_WORDS.contains ((pyStrip t).map pyLower) = false) :
    is_bytecode t = true := by
  unfold is_bytecode
  simp only [h2, Bool.false_eq_true, if_false]
  have hpat : bytecodePatternHit (pyStrip t) = true := by
    unfold bytecodePatternHit
    rcases h1 with h | h | h <;> simp [h]
  simp [hpat]

/-- Witness for C10: the ordinary dialogue sentence "Cases like this are
rare." is classified as bytecode (and dropped) because its trimmed text
begins with "case". -/
theorem C10_bytecode_start_anchored_witness :
    is_bytecode (lc "Cases like this are rare.") = true :=
  C10_bytecode_start_anchored _ (Or.inr (Or.inl (by decide))) (by decide)

/-! is_name_indicator, is_speaker_name and the admission filter
`_is_valid_text` (source lines 127-136 and 1299-1368). -/

/-- C3: any text containing the Unicode replacement character U+FFFD is
rejected by the admission filter, whatever else it contains (the check
precedes the speaker-name and UI-word allowances). -/
theorem C3_replacement_rejected (t : List Char) (h : '�' ∈ t) :
    _is_valid_text t = false := by
  have hc : t.contains '�' = true := by
    simpa [List.elem_iff] using h
  unfold _is_valid_text
  simp [hc, h]

/-- Witness for C3 at the concrete fragment "パール" followed by a
replacement character (a rostered speaker name plus a decode-failure
marker). -/
theorem C3_replacement_rejected_witness :
    '�' ∈ lc "パール�" ∧ _is_valid_text (lc "パール�") = false :=
  ⟨by decide, C3_replacement_rejected _ (by decide)⟩

/-! The candidate-entry record and the strategy merger
(source lines 1370-1399). -/

/-- C1: the merged list contains every compact entry; a padded entry
whose index no compact entry uses is included as-is; a padded entry whose
index some compact entry uses contributes nothing beyond what compact
already contributes (the compact entry, with its text, is kept and the
padded one is not added); and the merged list is sorted by
(index, byte offset). -/
theorem C1_merge_prefers_compact (padded compact : List Entry) :
    (∀ c ∈ compact, c ∈ mergeEntries padded compact) ∧
    (∀ p ∈ padded, p.index ∉ compact.map Entry.index →
      p ∈ mergeEntries padded compact) ∧
    (∀ p, p.index ∈ compact.map Entry.index →
      (mergeEntries padded compact).count p = compact.count p) ∧
    (mergeEntries padded compact).Sorted mergeLe := by
  have hperm := List.perm_insertionSort mergeLe
    (compact ++ padded.filter (fun p => !(compact.map Entry.index).contains p.index))
  refine ⟨?_, ?_, ?_, List.sorted_insertionSort mergeLe _⟩
  · intro c hc
    exact (List.mem_insertionSort mergeLe).2 (List.mem_append_left _ hc)
  · intro p hp hidx
    refine (List.mem_insertionSort mergeLe).2 (List.mem_append_right _ ?_)
    refine List.mem_filter.2 ⟨hp, ?_⟩
    simpa using hidx
  · intro p hidx
    unfold mergeEntries
    rw [hperm.count_eq, List.count_append]
    have : (padded.filter (fun p => !(compact.map Entry.index).contains p.index)).count p = 0 := by
      refine List.count_eq_zero.2 (fun hmem => ?_)
      have h2 := (List.mem_filter.1 hmem).2
      simp at h2
      obtain ⟨e, he, hei⟩ := List.mem_map.1 hidx
      exact h2 e he hei
    omega

/-- Witness for C1 at a concrete overlap: the compact entry is in the
merged list, the non-overlapping padded entry is in it, and the
overlapping padded entry occurs exactly as often as compact carries it
(zero times). -/
theorem C1_merge_prefers_compact_witness :
    mwComp ∈ mergeEntries [mwPadA, mwPadB] [mwComp] ∧
    mwPadB ∈ mergeEntries [mwPadA, mwPadB] [mwComp] ∧
    (mergeEntries [mwPadA, mwPadB] [mwComp]).count mwPadA =
      ([mwComp] : List Entry).count mwPadA :=
  ⟨(C1_merge_prefers_compact [mwPadA, mwPadB] [mwComp]).1 mwComp (by decide),
   (C1_merge_prefers_compact [mwPadA, mwPadB] [mwComp]).2.1 mwPadB (by decide) (by decide),
   (C1_merge_prefers_compact [mwPadA, mwPadB] [mwComp]).2.2.1 mwPadA (by decide)⟩

/-! Byte-level utilities: UTF-8 decoding with replacement, substring
search, and the code-start finder (source lines 809-826 and 991-1006). -/

/-- C5, amended: an invalid tag, out-of-range index, or out-of-range size
makes the padded and compact scans advance exactly one byte and retry;
the span-overrun failure is the exception and ends the scan (see the
counterexample). -/
theorem C5_one_byte_retry (data : ByteBuf) (pos : Nat) :
    (compactValidationFail data pos →
      parseCompactFrom data pos = parseCompactFrom data (pos + 1)) ∧
    (paddedValidationFail data pos →
      parsePaddedFrom data pos = parsePaddedFrom data (pos + 1)) := by
  have hf1 : data.length + 1 - pos = (data.length - pos) + 1 ∨ data.length + 1 - pos = 0 := by
    omega
  constructor
  · rintro ⟨h, hc⟩
    have hf : data.length + 1 - pos = (data.length - pos) + 1 := by omega
    have hf2 : data.length + 1 - (pos + 1) = data.length - pos := by omega
    unfold parseCompactFrom
    rw [hf, hf2]
    rcases hc with h1 | ⟨h1, h2⟩ | ⟨h1, h2, h3, h4⟩ | ⟨h1, h2, h3, h4⟩ <;>
      simp only [parseCompactFuel] <;> split_ifs <;>
      first
      | rfl
      | omega
      | simp_all
  · rintro ⟨h, hp, hc⟩
    have hf : data.length + 1 - pos = (data.length - pos) + 1 := by omega
    have hf2 : data.length + 1 - (pos + 1) = data.length - pos := by omega
    unfold parsePaddedFrom
    rw [hf, hf2]
    rcases hc with h1 | ⟨h1, h2, h3⟩ | ⟨h1, h2, h3, h4⟩ | ⟨h1, h2, h3⟩ | ⟨h1, h2, h3, h4⟩ <;>
      simp only [parsePaddedFuel] <;> split_ifs <;>
      first
      | rfl
      | omega
      | simp_all

/-- Witness for the amended C5 at concrete buffers with an invalid tag:
both scans advance one byte on the local validation failure. -/
theorem C5_one_byte_retry_witness :
    parseCompactFrom c5wC 0 = parseCompactFrom c5wC 1 ∧
    parsePaddedFrom c5wP 0 = parsePaddedFrom c5wP 1 :=
  ⟨(C5_one_byte_retry c5wC 0).1 ⟨by decide, by decide⟩,
   (C5_one_byte_retry c5wP 0).2 ⟨by decide, by decide, by decide⟩⟩

/-- Counterexample for C5 as stated: at offset 0 of c5buf the compact
scan meets a candidate header that passes the tag, index and size checks
but whose span does not fit; the scan terminates there with no entries —
it does not advance one byte and retry, which would have recovered the
complete entry at offset 12, as scanning from offset 1 shows. -/
theorem C5_counterexample :
    compactTypes.contains (u32le c5buf 0) = true ∧
    u32le c5buf 4 ≤ 100000 ∧
    4 ≤ u32le c5buf 8 ∧ u32le c5buf 8 ≤ 10000 ∧
    0 + 12 + u32le c5buf 8 > c5buf.length ∧
    _parse_compact_format c5buf = [] ∧
    parseCompactFrom c5buf 1 =
      [{ index := 1, type := 4, text := lc "Hello there!",
         size := 12, offset := 12 }] := by
  refine ⟨by decide, by decide, by decide, by decide, by decide, ?_, ?_⟩ <;> rfl

/-- Head of a list through getD agrees with the head of the dropped
suffix (used to transport byte reads along an append). -/
theorem getD_eq_headD_drop (l : List Nat) (n : Nat) :
    l.getD n 0 = (l.drop n).headD 0 := by
  induction l generalizing n with
  | nil => simp
  | cons a t ih =>
    cases n with
    | zero => simp
    | succ m => simpa using ih m

/-- The legacy scan loop never looks at bytes before its position: over
`pre ++ suf` from any position past `pre`, its output is the same for any
prefix of that length. -/
theorem parseLegacyFuel_append (pre1 pre2 suf : ByteBuf)
    (hlen : pre1.length = pre2.length) (fuel : Nat) :
    ∀ pos cnt, pre1.length ≤ pos →
      parseLegacyFuel (pre1 ++ suf) fuel pos cnt =
      parseLegacyFuel (pre2 ++ suf) fuel pos cnt := by
  induction fuel with
  | zero => intro pos cnt _; rfl
  | succ n ih =>
    intro pos cnt hpos
    have hL : (pre1 ++ suf).length = (pre2 ++ suf).length := by simp [hlen]
    have hdrop : (pre1 ++ suf).drop pos = (pre2 ++ suf).drop pos := by
      obtain ⟨k, hk⟩ := Nat.exists_eq_add_of_le hpos
      rw [hk, List.drop_append k, hlen, List.drop_append k]
    have hb : byteAt (pre1 ++ suf) pos = byteAt (pre2 ++ suf) pos := by
      unfold byteAt
      rw [getD_eq_headD_drop, getD_eq_headD_drop, hdrop]
    have hdec : decode_utf8_string (pre1 ++ suf) pos =
        decode_utf8_string (pre2 ++ suf) pos := by
      unfold decode_utf8_string
      rw [hdrop]
    simp only [parseLegacyFuel, hL, hb, hdec]
    split
    · split
      · exact ih (pos + 1) cnt (by omega)
      · split
        · rw [ih (pos + (decode_utf8_string (pre2 ++ suf) pos).2) (cnt + 1) (by omega)]
        · exact ih (pos + 1) cnt (by omega)
    · rfl

/-- C6, amended: the padded and compact strategies scan from offset 0 of
the whole buffer, while the legacy scan starts only at the detected
code-start offset and its output is unaffected by the bytes before that
offset (so a fragment before the code-start marker is not found by the
legacy strategy). -/
theorem C6_scan_coverage (data pre1 pre2 suf : ByteBuf)
    (hlen : pre1.length = pre2.length) :
    _parse_padded_format data = parsePaddedFrom data 0 ∧
    _parse_compact_format data = parseCompactFrom data 0 ∧
    _parse_legacy_utf8 data = parseLegacyFrom data (_find_code_start data) 0 ∧
    (∀ cnt, parseLegacyFrom (pre1 ++ suf) pre1.length cnt =
      parseLegacyFrom (pre2 ++ suf) pre2.length cnt) := by
  refine ⟨rfl, rfl, rfl, fun cnt => ?_⟩
  unfold parseLegacyFrom
  have hfl : (pre1 ++ suf).length + 1 - pre1.length =
      (pre2 ++ suf).length + 1 - pre2.length := by simp [hlen]
  rw [hfl, hlen]
  exact parseLegacyFuel_append pre1 pre2 suf hlen _ pre2.length cnt (by omega)

/-- Witness for the amended C6: the bytes before the scan start do not
change the legacy output (a fragment prefix and a null prefix give the
same result). -/
theorem C6_scan_coverage_witness :
    parseLegacyFrom ([72, 105, 33, 0] ++ [106, 97, 112, 97, 110, 0]) 4 0 =
      parseLegacyFrom ([0, 0, 0, 0] ++ [106, 97, 112, 97, 110, 0]) 4 0 :=
  (C6_scan_coverage [] [72, 105, 33, 0] [0, 0, 0, 0] [106, 97, 112, 97, 110, 0]
    (by decide)).2.2.2 0

/-- Counterexample for C6 as stated: the legacy scan starts at the
code-start offset (16 in c6buf, just past the CODE_START_ marker) and
finds nothing, although the buffer holds the decodable 3-character
fragment "Hi!" at offset 0, which a scan of the whole buffer finds. -/
theorem C6_counterexample :
    _find_code_start c6buf = 16 ∧
    _parse_legacy_utf8 c6buf = [] ∧
    2 ≤ (decode_utf8_string c6buf 0).1.length ∧
    parseLegacyFrom c6buf 0 0 =
      [{ index := 0, type := 4, text := lc "Hi!", size := 3 },
       { index := 1, type := 4, text := lc "CODE_START_", size := 11 }] := by
  refine ⟨by decide, ?_, by decide, ?_⟩ <;> rfl

/-- The padding-skip loop never moves the cursor backwards. -/
theorem le_skipPadF (data : ByteBuf) :
    ∀ fuel pos, pos ≤ skipPadF data fuel pos
  | 0, pos => Nat.le_refl _
  | fuel + 1, pos => by
    simp only [skipPadF]
    split
    · split
      · exact Nat.le_trans (Nat.le_succ pos) (le_skipPadF data fuel (pos + 1))
      · exact Nat.le_refl _
    · exact Nat.le_refl _

/-- The padding-skip wrapper never moves the cursor backwards. -/
theorem le_skipPadFrom (data : ByteBuf) (pos : Nat) : pos ≤ skipPadFrom data pos :=
  le_skipPadF data _ pos

/-- The resynchronisation loop never moves the cursor backwards. -/
theorem le_resyncF (data : ByteBuf) :
    ∀ fuel pos, pos ≤ resyncF data fuel pos
  | 0, pos => Nat.le_refl _
  | fuel + 1, pos => by
    simp only [resyncF]
    repeat' split
    all_goals try exact Nat.le_refl _
    all_goals exact Nat.le_trans (Nat.le_succ pos) (le_resyncF data fuel (pos + 1))

/-- The resynchronisation wrapper never moves the cursor backwards. -/
theorem le_resyncPadded (data : ByteBuf) (pos : Nat) : pos ≤ resyncPadded data pos :=
  le_resyncF data _ pos

/-- Weakening step for the offset invariant: a lower bound `q` on the
offsets of a scan tail also bounds them by any `pos ≤ q`. -/
theorem offsets_weaken (pos q : Nat) (l : List Entry) (hpq : pos ≤ q)
    (h : (∀ e ∈ l, q ≤ e.offset) ∧ l.Chain' (fun a b => a.offset < b.offset)) :
    (∀ e ∈ l, pos ≤ e.offset) ∧ l.Chain' (fun a b => a.offset < b.offset) :=
  ⟨fun e he => Nat.le_trans hpq (h.1 e he), h.2⟩

/-- Emission step for the offset invariant: an entry recorded at the scan
position, followed by a tail whose offsets exceed it. -/
theorem offsets_cons (pos q : Nat) (e : Entry) (l : List Entry)
    (hpq : pos < q) (he : e.offset = pos)
    (h : (∀ x ∈ l, q ≤ x.offset) ∧ l.Chain' (fun a b => a.offset < b.offset)) :
    (∀ x ∈ e :: l, pos ≤ x.offset) ∧
      (e :: l).Chain' (fun a b => a.offset < b.offset) := by
  constructor
  · intro x hx
    rcases List.mem_cons.1 hx with rfl | hx
    · omega
    · exact Nat.le_trans (Nat.le_of_lt hpq) (h.1 x hx)
  · refine List.chain'_cons'.mpr ⟨fun y hy => ?_, h.2⟩
    have hyl := h.1 y (List.mem_of_mem_head? hy)
    omega

/-- Offsets recorded by the compact scan are bounded below by the scan
position and strictly increase along the output. -/
theorem parseCompactFuel_offsets (data : ByteBuf) :
    ∀ fuel pos, (∀ e ∈ parseCompactFuel data fuel pos, pos ≤ e.offset) ∧
      (parseCompactFuel data fuel pos).Chain' (fun a b => a.offset < b.offset)
  | 0, pos => by simp [parseCompactFuel]
  | fuel + 1, pos => by
    have ihm := parseCompactFuel_offsets data fuel
    have hs1 := le_skipPadFrom data (pos + 12 + compactSize16 data pos)
    have hs2 := le_skipPadFrom data (pos + 12 + u32le data (pos + 8))
    simp only [parseCompactFuel]
    split_ifs
    all_goals try simp only [List.nil_append, List.singleton_append]
    all_goals first
      | (simp; done)
      | exact offsets_weaken pos (pos + 1) _ (Nat.le_succ pos) (ihm (pos + 1))
      | (refine offsets_weaken pos _ _ ?_ (ihm _); omega)
      | (refine offsets_cons pos _ _ _ ?_ rfl (ihm _); omega)

set_option maxHeartbeats 2000000 in
/-- Offsets recorded by the padded scan are bounded below by the scan
position and strictly increase along the output. -/
theorem parsePaddedFuel_offsets (data : ByteBuf) :
    ∀ fuel pos, (∀ e ∈ parsePaddedFuel data fuel pos, pos ≤ e.offset) ∧
      (parsePaddedFuel data fuel pos).Chain' (fun a b => a.offset < b.offset)
  | 0, pos => by simp [parsePaddedFuel]
  | fuel + 1, pos => by
    have ihm := parsePaddedFuel_offsets data fuel
    have hs1 := le_resyncPadded data (pos + paddedPO data pos + 12 + paddedSize16 data pos)
    have hs2 := le_resyncPadded data (pos + paddedPO data pos + 12 + u32le data (pos + paddedPO data pos + 8))
    simp only [parsePaddedFuel]
    set p0 := paddedPO data pos with hp0
    set s16 := paddedSize16 data pos with hs16
    set w8 := u32le data (pos + p0 + 8) with hw8
    set t1 := decodeUtf8Replace (rstripNullsB ((data.drop (pos + p0 + 12)).take s16)) with ht1
    set t2 := decodeUtf8Replace (rstripNullsB ((data.drop (pos + p0 + 12)).take w8)) with ht2
    split_ifs
    all_goals try simp only [List.nil_append, List.singleton_append]
    all_goals first
      | (simp; done)
      | exact offsets_weaken pos (pos + 1) _ (Nat.le_succ pos) (ihm (pos + 1))
      | (refine offsets_weaken pos _ _ ?_ (ihm _); omega)
      | (refine offsets_cons pos _ _ _ ?_ rfl (ihm _); omega)

/-- C9: within the output of a single structured extraction strategy
(padded or compact), the recorded byte offset strictly increases from
each entry to the next. -/
theorem C9_offsets_strictly_increase (data : ByteBuf) :
    (_parse_padded_format data).Chain' (fun a b => a.offset < b.offset) ∧
    (_parse_compact_format data).Chain' (fun a b => a.offset < b.offset) :=
  ⟨(parsePaddedFuel_offsets data (data.length + 1 - 0) 0).2,
   (parseCompactFuel_offsets data (data.length + 1 - 0) 0).2⟩

/-! The ChoiceGrouper: `is_choice_candidate` (source lines 193-258) and
`group_related_choices` (source lines 260-335). -/

/-- Greedy clustering with enough fuel concatenates back to its input. -/
theorem clusterF_flatten {α : Type} (idx : α → Nat) :
    ∀ (fuel : Nat) (l : List α), l.length ≤ fuel →
      (clusterF idx fuel l).flatten = l
  | 0, [], _ => rfl
  | 0, a :: l, h => by simp at h
  | fuel + 1, [], _ => rfl
  | fuel + 1, c :: rest, h => by
    have hd : (rest.dropWhile (fun e => decide (idx e ≤ idx c + 50))).length ≤ fuel := by
      have : (rest.dropWhile (fun e => decide (idx e ≤ idx c + 50))).length ≤ rest.length :=
        (List.dropWhile_sublist _).length_le
      simp only [List.length_cons] at h
      omega
    simp only [clusterF, List.flatten_cons, clusterF_flatten idx fuel _ hd]
    simp [List.takeWhile_append_dropWhile]

/-- Every greedy cluster is nonempty and its members lie within 50 index
positions of its first member. -/
theorem clusterF_window {α : Type} (idx : α → Nat) :
    ∀ (fuel : Nat) (l : List α) (g : List α), g ∈ clusterF idx fuel l →
      ∃ c tl, g = c :: tl ∧ ∀ e ∈ tl, idx e ≤ idx c + 50
  | 0, l, g, h => by simp [clusterF] at h
  | fuel + 1, [], g, h => by simp [clusterF] at h
  | fuel + 1, c :: rest, g, h => by
    simp only [clusterF, List.mem_cons] at h
    rcases h with rfl | h
    · refine ⟨c, _, rfl, fun e he => ?_⟩
      simpa using List.mem_takeWhile_imp he
    · exact clusterF_window idx fuel _ g h

/-- The choice candidates carry pairwise distinct positions. -/
theorem choiceCands_nodup (entries : List Entry) : (choiceCands entries).Nodup := by
  have h1 : entries.enum.Nodup := by
    have := List.nodup_range entries.length
    rw [← List.enum_map_fst entries] at this
    exact this.of_map Prod.fst
  exact h1.sublist (List.filter_sublist _)

/-- Positions determine the entry within enum. -/
theorem enum_functional {l : List Entry} {i : Nat} {x y : Entry}
    (hx : (i, x) ∈ l.enum) (hy : (i, y) ∈ l.enum) : x = y := by
  have hx' := List.mk_mem_enum_iff_getElem?.mp hx
  have hy' := List.mk_mem_enum_iff_getElem?.mp hy
  rw [hx'] at hy'
  exact Option.some.inj hy'

/-- Flattening the greedy clusters recovers the candidate list. -/
theorem choiceClusters_flatten (entries : List Entry) :
    (choiceClusters entries).flatten = choiceCands entries :=
  clusterF_flatten _ _ _ (Nat.le_refl _)

/-- A member of a choice cluster is a choice candidate pair. -/
theorem mem_of_mem_choiceClusters {entries : List Entry}
    {g : List (Nat × Entry)} {pe : Nat × Entry}
    (hg : g ∈ choiceClusters entries) (hpe : pe ∈ g) :
    pe ∈ choiceCands entries := by
  rw [← choiceClusters_flatten]
  exact List.mem_flatten.mpr ⟨g, hg, hpe⟩

/-- A candidate pair belongs to exactly one cluster: it cannot lie in
two clusters that differ. -/
theorem choiceClusters_disjoint {entries : List Entry}
    {g g' : List (Nat × Entry)} {pe : Nat × Entry}
    (hg : g ∈ choiceClusters entries) (hg' : g' ∈ choiceClusters entries)
    (hne : g ≠ g') (hpe : pe ∈ g) : pe ∉ g' := by
  intro hpe'
  obtain ⟨s, t, hst⟩ := List.append_of_mem hg
  have hflat : choiceCands entries = s.flatten ++ (g ++ t.flatten) := by
    rw [← choiceClusters_flatten, hst]
    simp [List.flatten_append, List.flatten_cons]
  have hnd : (s.flatten ++ (g ++ t.flatten)).Nodup := by
    rw [← hflat]; exact choiceCands_nodup entries
  obtain ⟨hnds, hndgt, hdisj1⟩ := List.nodup_append.mp hnd
  obtain ⟨hndg, hndt, hdisj2⟩ := List.nodup_append.mp hndgt
  have hg'' : g' ∈ s ∨ g' ∈ t := by
    have hmem := hg'
    rw [hst] at hmem
    rcases List.mem_append.1 hmem with h | h
    · exact Or.inl h
    · rcases List.mem_cons.1 h with h | h
      · exact absurd h.symm hne
      · exact Or.inr h
  rcases hg'' with h | h
  · exact hdisj1 (List.mem_flatten.mpr ⟨g', h, hpe'⟩) (List.mem_append_left _ hpe)
  · exact hdisj2 hpe (List.mem_flatten.mpr ⟨g', h, hpe'⟩)

/-- A position marked for removal comes from a pair of some converted
cluster. -/
theorem removedPos_spec {entries : List Entry} {i : Nat}
    (hi : i ∈ removedPos entries) :
    ∃ g qe, g ∈ choiceClusters entries ∧ (2 ≤ g.length ∧ g.length ≤ 5) ∧
      qe ∈ g ∧ qe.1 = i := by
  unfold removedPos at hi
  obtain ⟨ps, hps, hips⟩ := List.mem_flatten.mp hi
  obtain ⟨g', hg', rfl⟩ := List.mem_map.1 hps
  obtain ⟨qe, hqe, hq1⟩ := List.mem_map.1 hips
  refine ⟨g', qe, List.mem_of_mem_filter hg', ?_, hqe, hq1⟩
  have := (List.mem_filter.1 hg').2
  simpa using this

set_option maxHeartbeats 1000000 in
/-- C8: choice grouping clusters the candidates greedily within a
50-index window of the first candidate of the forming cluster; each
cluster of 2 to 5 members is replaced by exactly one synthetic Choice
entry (ordered option texts, joined with the separator); clusters of
other sizes pass through, as do non-candidate entries; and the result of
a non-trivial grouping is sorted by index (a sorted input stays sorted). -/
theorem C8_choice_grouping (entries : List Entry) :
    ((choiceClusters entries).flatten = choiceCands entries ∧
     (∀ g ∈ choiceClusters entries,
        ∃ c tl, g = c :: tl ∧ ∀ pe ∈ tl, pe.2.index ≤ c.2.index + 50)) ∧
    ((choiceCands entries).isEmpty = false →
      (group_related_choices entries).Perm
        (keptEntries entries ++ groupedEntries entries)) ∧
    (∀ g ∈ choiceClusters entries, 2 ≤ g.length ∧ g.length ≤ 5 →
       mkCombinedChoice (g.map Prod.snd) ∈ group_related_choices entries ∧
       mkCombinedChoice (g.map Prod.snd) =
         specChoice ((g.map Prod.snd).headD default).index
           ((g.map Prod.snd).map (fun e => pyStrip e.text))) ∧
    (∀ g ∈ choiceClusters entries, ¬ (2 ≤ g.length ∧ g.length ≤ 5) →
       ∀ pe ∈ g, pe.2 ∈ group_related_choices entries) ∧
    (∀ e ∈ entries, is_choice_candidate e = false →
       e ∈ group_related_choices entries) ∧
    (List.Pairwise idxLe entries →
       List.Pairwise idxLe (group_related_choices entries)) := by
  have hclusters_ne : ∀ g ∈ choiceClusters entries, (choiceCands entries).isEmpty = false := by
    intro g hg
    by_contra hne
    have hemp : choiceCands entries = [] := by
      cases h : choiceCands entries
      · rfl
      · rw [h] at hne; simp at hne
    rw [choiceClusters, clusterGreedy, hemp] at hg
    simp [clusterF] at hg
  have hout : ∀ (_ : (choiceCands entries).isEmpty = false),
      group_related_choices entries =
        List.insertionSort idxLe (keptEntries entries ++ groupedEntries entries) := by
    intro h
    unfold group_related_choices
    rw [if_neg (by simp [h])]
  refine ⟨⟨choiceClusters_flatten entries, ?_⟩, ?_, ?_, ?_, ?_, ?_⟩
  · intro g hg
    exact clusterF_window _ _ _ g hg
  · intro h
    rw [hout h]
    exact List.perm_insertionSort idxLe _
  · intro g hg hsz
    constructor
    · rw [hout (hclusters_ne g hg)]
      refine (List.mem_insertionSort idxLe).2 (List.mem_append_right _ ?_)
      unfold groupedEntries
      refine List.mem_map.2 ⟨g, ?_, rfl⟩
      unfold convClusters
      exact List.mem_filter.2 ⟨hg, by simpa using hsz⟩
    · unfold mkCombinedChoice specChoice
      simp
  · intro g hg hsz pe hpe
    rw [hout (hclusters_ne g hg)]
    refine (List.mem_insertionSort idxLe).2 (List.mem_append_left _ ?_)
    have hnotin : pe.1 ∉ removedPos entries := by
      intro hj
      obtain ⟨g', qe, hg'cl, hg'sz, hqe, hq1⟩ := removedPos_spec hj
      have hgne : g ≠ g' := fun hEq => hsz (hEq ▸ hg'sz)
      have hqe_c := mem_of_mem_choiceClusters hg'cl hqe
      have hpe_c := mem_of_mem_choiceClusters hg hpe
      have hqe_e : (pe.1, qe.2) ∈ entries.enum := by
        have hh := List.mem_of_mem_filter hqe_c
        rwa [show qe = (pe.1, qe.2) by
          cases qe; simp only at hq1; simp [hq1]] at hh
      have hpe_e : (pe.1, pe.2) ∈ entries.enum := by
        have hh := List.mem_of_mem_filter hpe_c
        rwa [show pe = (pe.1, pe.2) by cases pe; rfl] at hh
      have hsame : qe.2 = pe.2 := enum_functional hqe_e hpe_e
      have hqepe : qe = pe := by
        cases qe; cases pe
        simp only at hq1 hsame
        simp [hq1, hsame]
      exact choiceClusters_disjoint hg hg'cl hgne hpe (hqepe ▸ hqe)
    unfold keptEntries
    refine List.mem_map.2 ⟨pe, List.mem_filter.2 ⟨?_, by simpa using hnotin⟩, rfl⟩
    exact List.mem_of_mem_filter (mem_of_mem_choiceClusters hg hpe)
  · intro e he hcand
    cases hne : (choiceCands entries).isEmpty
    · rw [hout hne]
      refine (List.mem_insertionSort idxLe).2 (List.mem_append_left _ ?_)
      obtain ⟨i, hilt, hie⟩ := List.mem_iff_getElem.1 he
      have hie' : (i, e) ∈ entries.enum := by
        apply List.mk_mem_enum_iff_getElem?.mpr
        rw [List.getElem?_eq_getElem hilt, hie]
      have hnotin : i ∉ removedPos entries := by
        intro hj
        obtain ⟨g', qe, hg'cl, hg'sz, hqe, hq1⟩ := removedPos_spec hj
        have hqe_c := mem_of_mem_choiceClusters hg'cl hqe
        have hqe_enum := List.mem_of_mem_filter hqe_c
        have hqe_enum' : (i, qe.2) ∈ entries.enum := by
          rwa [show qe = (i, qe.2) by
            cases qe; simp only at hq1; simp [hq1]] at hqe_enum
        have hqee : qe.2 = e := enum_functional hqe_enum' hie'
        have hcand' := (List.mem_filter.1 hqe_c).2
        rw [hqee, hcand] at hcand'
        exact absurd hcand' (by simp)
      unfold keptEntries
      exact List.mem_map.2 ⟨(i, e), List.mem_filter.2 ⟨hie', by simpa using hnotin⟩, rfl⟩
    · unfold group_related_choices
      rw [if_pos hne]
      exact he
  · intro hsorted
    cases hne : (choiceCands entries).isEmpty
    · rw [hout hne]
      exact List.sorted_insertionSort idxLe _
    · unfold group_related_choices
      rw [if_pos hne]
      exact hsorted

/-- On a list sorted by a numeric key, taking while the key is at most K
is filtering, and dropping is filtering the complement. -/
theorem sorted_takeWhile_eq_filter {α : Type} (idx : α → Nat) (K : Nat) :
    ∀ (C : List α), List.Pairwise (fun x y => idx x ≤ idx y) C →
      C.takeWhile (fun e => decide (idx e ≤ K)) =
        C.filter (fun e => decide (idx e ≤ K)) ∧
      C.dropWhile (fun e => decide (idx e ≤ K)) =
        C.filter (fun e => decide (¬ idx e ≤ K))
  | [], _ => ⟨rfl, rfl⟩
  | a :: C, h => by
    have hhd := (List.pairwise_cons.1 h).1
    have htl := (List.pairwise_cons.1 h).2
    have ih := sorted_takeWhile_eq_filter idx K C htl
    by_cases ha : idx a ≤ K
    · simp only [List.takeWhile_cons, List.dropWhile_cons, List.filter_cons, ha]
      simp [ih.1, ih.2, ha]
    · have hall : ∀ e ∈ C, ¬ idx e ≤ K := fun e he => by
        have := hhd e he
        omega
      have hfn : List.filter (fun e => decide (idx e ≤ K)) C = [] :=
        List.filter_eq_nil_iff.mpr (fun e he => by simp [hall e he])
      have hfs : List.filter (fun e => decide (¬ idx e ≤ K)) C = C :=
        List.filter_eq_self.mpr (fun e he => by simp [hall e he])
      have hfs2 : List.filter (fun e => decide (K < idx e)) C = C :=
        List.filter_eq_self.mpr (fun e he => by
          have := hall e he
          simp
          omega)
      constructor
      · simp [List.takeWhile_cons, List.filter_cons, ha, hfn]
      · simp [List.dropWhile_cons, List.filter_cons, ha, hfs, hfs2, Nat.lt_of_not_le ha]

/-- Two lists tracing the same index sequence align under takeWhile and
dropWhile on an index predicate. -/
theorem takeWhile_map_congr {α β : Type} (ia : α → Nat) (ib : β → Nat) (p : Nat → Bool) :
    ∀ (la : List α) (lb : List β), la.map ia = lb.map ib →
      ((la.takeWhile (fun e => p (ia e))).map ia =
        (lb.takeWhile (fun e => p (ib e))).map ib ∧
       (la.dropWhile (fun e => p (ia e))).map ia =
        (lb.dropWhile (fun e => p (ib e))).map ib)
  | [], [], _ => ⟨rfl, rfl⟩
  | [], b :: lb, h => by simp at h
  | a :: la, [], h => by simp at h
  | a :: la, b :: lb, h => by
    simp only [List.map_cons, List.cons.injEq] at h
    obtain ⟨hab, h⟩ := h
    have ih := takeWhile_map_congr ia ib p la lb h
    constructor
    · simp only [List.takeWhile_cons, hab]
      cases p (ib b)
      · simp
      · simp [ih.1, hab]
    · simp only [List.dropWhile_cons, hab]
      cases p (ib b)
      · simp [List.map_cons, hab, h]
      · simp [ih.2]

/-- Two lists tracing the same index sequence produce greedy clusters of
the same lengths. -/
theorem clusterF_lengths {α β : Type} (ia : α → Nat) (ib : β → Nat) :
    ∀ (fuel : Nat) (la : List α) (lb : List β), la.map ia = lb.map ib →
      (clusterF ia fuel la).map List.length = (clusterF ib fuel lb).map List.length
  | 0, _, _, _ => rfl
  | fuel + 1, [], lb, h => by
    cases lb with
    | nil => rfl
    | cons b lb => simp at h
  | fuel + 1, a :: la, lb, h => by
    cases lb with
    | nil => simp at h
    | cons b lb =>
      simp only [List.map_cons, List.cons.injEq] at h
      obtain ⟨hab, h⟩ := h
      have halign := takeWhile_map_congr ia ib (fun n => decide (n ≤ ia a + 50)) la lb h
      have htw := halign.1
      have hdw := halign.2
      simp only [clusterF, List.map_cons, List.length_cons]
      rw [show (fun e => decide (ib e ≤ ib b + 50)) =
            (fun e => decide (ib e ≤ ia a + 50)) by rw [hab]]
      congr 1
      · have := congrArg List.length htw
        simpa using this
      · exact clusterF_lengths ia ib fuel _ _ hdw

/-- The entries of the candidate pairs are the candidate entries. -/
theorem choiceCands_map_snd (l : List Entry) :
    (choiceCands l).map Prod.snd = l.filter is_choice_candidate := by
  have h := @List.filter_map (Nat × Entry) Entry is_choice_candidate Prod.snd l.enum
  rw [List.enum_map_snd] at h
  unfold choiceCands
  rw [show (fun pe : Nat × Entry => is_choice_candidate pe.2) =
    (is_choice_candidate ∘ Prod.snd) from rfl]
  exact h.symm

/-- Every greedy cluster is a sublist of the clustered list. -/
theorem clusterF_mem_sublist {α : Type} (idx : α → Nat) :
    ∀ (fuel : Nat) (l : List α) (g : List α), g ∈ clusterF idx fuel l → g.Sublist l
  | 0, _, g, h => by simp [clusterF] at h
  | _ + 1, [], g, h => by simp [clusterF] at h
  | fuel + 1, c :: rest, g, h => by
    simp only [clusterF, List.mem_cons] at h
    rcases h with rfl | h
    · exact List.Sublist.cons₂ c (List.takeWhile_sublist _)
    · exact ((clusterF_mem_sublist idx fuel _ g h).trans
        (List.dropWhile_sublist _)).trans (List.sublist_cons_self c rest)

/-- On a sorted list, every member of a later greedy cluster exceeds the
window of an earlier cluster's anchor. -/
theorem clusterF_sep {α : Type} (idx : α → Nat) :
    ∀ (fuel : Nat) (l : List α), l.length ≤ fuel →
      List.Pairwise (fun x y => idx x ≤ idx y) l →
      List.Pairwise
        (fun g h => ∀ y ∈ h, ∀ c, g.head? = some c → idx c + 50 < idx y)
        (clusterF idx fuel l)
  | 0, l, _, _ => by simp [clusterF]
  | _ + 1, [], _, _ => by simp [clusterF]
  | fuel + 1, c :: rest, hf, hs => by
    have hhd := (List.pairwise_cons.1 hs).1
    have htl := (List.pairwise_cons.1 hs).2
    have hlen : (rest.dropWhile (fun e => decide (idx e ≤ idx c + 50))).length ≤ fuel := by
      have h1 : (rest.dropWhile (fun e => decide (idx e ≤ idx c + 50))).length ≤ rest.length :=
        (List.dropWhile_sublist _).length_le
      simp only [List.length_cons] at hf
      omega
    simp only [clusterF]
    refine List.pairwise_cons.mpr ⟨?_, ?_⟩
    · intro h hmem y hy c₀ hc₀
      rw [List.head?_cons, Option.some.injEq] at hc₀
      subst hc₀
      have hy' : y ∈ rest.dropWhile (fun e => decide (idx e ≤ idx c + 50)) := by
        rw [← clusterF_flatten idx fuel _ hlen]
        exact List.mem_flatten.mpr ⟨h, hmem, hy⟩
      rw [(sorted_takeWhile_eq_filter idx (idx c + 50) rest htl).2] at hy'
      have := (List.mem_filter.1 hy').2
      simp only [decide_eq_true_eq] at this
      omega
    · exact clusterF_sep idx fuel _ hlen
        (htl.sublist (List.dropWhile_sublist _))

/-- Flattening blockwise appends is a permutation of the two flattened
halves. -/
theorem flatten_map_append_perm {α β : Type} (u v : β → List α) :
    ∀ l : List β,
      ((l.map fun g => u g ++ v g).flatten).Perm
        ((l.map u).flatten ++ (l.map v).flatten)
  | [] => by simp
  | g :: l => by
    simp only [List.map_cons, List.flatten_cons]
    have ih := flatten_map_append_perm u v l
    have h1 : (u g ++ v g) ++ ((l.map fun x => u x ++ v x).flatten) |>.Perm
        ((u g ++ v g) ++ ((l.map u).flatten ++ (l.map v).flatten)) :=
      List.Perm.append_left _ ih
    refine h1.trans ?_
    have e1 : (u g ++ v g) ++ ((l.map u).flatten ++ (l.map v).flatten) =
        u g ++ ((v g ++ (l.map u).flatten) ++ (l.map v).flatten) := by
      simp [List.append_assoc]
    have e2 : (u g ++ (l.map u).flatten) ++ (v g ++ (l.map v).flatten) =
        u g ++ (((l.map u).flatten ++ v g) ++ (l.map v).flatten) := by
      simp [List.append_assoc]
    rw [e1, e2]
    exact List.Perm.append_left _ (List.Perm.append_right _ List.perm_append_comm)

/-- Filtering a mapped list, blockwise: each image contributes its own
filtered singleton. -/
theorem filter_map_flatten {α β : Type} (p : α → Bool) (f : β → α) :
    ∀ l : List β,
      List.filter p (l.map f) = (l.map fun x => List.filter p [f x]).flatten
  | [] => rfl
  | x :: l => by
    have ih := filter_map_flatten p f l
    rw [List.map_cons, List.map_cons, List.flatten_cons, ← ih,
      ← List.filter_append, List.singleton_append]

/-- Mapping over a filtered list flattens the same as mapping the
conditional image over the whole list. -/
theorem flatten_map_filter {α β : Type} (q : β → Bool) (f : β → List α) :
    ∀ l : List β,
      ((l.filter q).map f).flatten = (l.map fun x => if q x then f x else []).flatten
  | [] => rfl
  | x :: l => by
    have ih := flatten_map_filter q f l
    simp only [List.filter_cons]
    cases hq : q x
    · simpa [hq] using ih
    · simpa [hq] using ih

theorem clusterResidue_eq_append (g : List (Nat × Entry)) :
    clusterResidue g = unconvResidue g ++ convResidue g := by
  unfold clusterResidue unconvResidue convResidue
  split <;> simp

/-- Builds the block structure from anchored, window-bounded, separated
clusters. -/
theorem BlocksOK_mk (res : List (Nat × Entry) → List Entry) :
    ∀ (cl : List (List (Nat × Entry))),
      (∀ g ∈ cl, ∀ e ∈ res g, ∃ c, g.head? = some c ∧
          c.2.index ≤ e.index ∧ e.index ≤ c.2.index + 50) →
      (∀ g ∈ cl, res g ≠ [] → ∃ c, g.head? = some c ∧
          ∃ e ∈ res g, e.index = c.2.index) →
      List.Pairwise
        (fun g h => ∀ y ∈ h, ∀ c, g.head? = some c →
          c.2.index + 50 < y.2.index) cl →
      BlocksOK (cl.map res)
  | [], _, _, _ => trivial
  | g :: cl, h1, h2, hsep => by
    have hsep1 := (List.pairwise_cons.1 hsep).1
    have hsepT := (List.pairwise_cons.1 hsep).2
    refine ⟨?_, BlocksOK_mk res cl
      (fun g' hg' => h1 g' (List.mem_cons_of_mem _ hg'))
      (fun g' hg' => h2 g' (List.mem_cons_of_mem _ hg'))
      hsepT⟩
    intro hne
    obtain ⟨c, hc, e₀, he₀, he₀idx⟩ := h2 g (List.mem_cons_self _ _) hne
    refine ⟨c.2.index, ⟨e₀, he₀, he₀idx⟩, ?_, ?_⟩
    · intro e he
      obtain ⟨c', hc', hlb, hub⟩ := h1 g (List.mem_cons_self _ _) e he
      rw [hc] at hc'
      cases Option.some.inj hc'
      exact ⟨hlb, hub⟩
    · intro x hx
      obtain ⟨B', hB', hxB'⟩ := List.mem_flatten.1 hx
      obtain ⟨h', hh', rfl⟩ := List.mem_map.1 hB'
      obtain ⟨c', hc', hlb', _⟩ := h1 h' (List.mem_cons_of_mem _ hh') x hxB'
      have hhd' : c' ∈ h' := List.mem_of_mem_head? (by rw [hc']; rfl)
      have := hsep1 h' hh' c' hhd' c hc
      omega

/-- Greedy clustering of a sorted permutation of a window-separated
block structure yields exactly the nonempty blocks' sizes. -/
theorem blocks_cluster :
    ∀ (Bs : List (List Entry)) (fuel : Nat) (C : List Entry),
      C.length ≤ fuel → List.Pairwise idxLe C → C.Perm Bs.flatten →
      BlocksOK Bs →
      (clusterF Entry.index fuel C).map List.length =
        (Bs.filter (fun B => !B.isEmpty)).map List.length
  | [], fuel, C, _, _, hperm, _ => by
    have hC : C = [] := by simpa using hperm.eq_nil
    subst hC
    cases fuel <;> rfl
  | [] :: Bs, fuel, C, hf, hs, hperm, hok => by
    rw [List.filter_cons_of_neg (by simp)]
    exact blocks_cluster Bs fuel C hf hs (by simpa using hperm) hok.2
  | (b :: B) :: Bs, fuel, C, hf, hs, hperm, hok => by
    obtain ⟨a, ⟨ea, hea, heaidx⟩, hwin, hsep⟩ := hok.1 (by simp)
    have hsC : List.Pairwise (fun x y : Entry => x.index ≤ y.index) C := hs
    have heaC : ea ∈ C := hperm.mem_iff.2 (by
      rw [List.flatten_cons]
      exact List.mem_append_left _ hea)
    have hlb : ∀ x ∈ C, a ≤ x.index := by
      intro x hx
      have hx' := hperm.mem_iff.1 hx
      rw [List.flatten_cons] at hx'
      rcases List.mem_append.1 hx' with h | h
      · exact (hwin x h).1
      · have := hsep x h
        omega
    cases C with
    | nil => exact absurd heaC (by simp)
    | cons c rest =>
      cases fuel with
      | zero =>
        simp only [List.length_cons] at hf
        omega
      | succ fuel =>
        have hhd := (List.pairwise_cons.1 hs).1
        have hcidx : c.index = a := by
          have h2 := hlb c (List.mem_cons_self _ _)
          rcases List.mem_cons.1 heaC with h | h
          · rw [← h, heaidx]
          · have h1 := hhd ea h
            unfold idxLe at h1
            omega
        rw [← hcidx] at hwin hsep
        have htwdw := sorted_takeWhile_eq_filter Entry.index (c.index + 50) (c :: rest) hsC
        have htw0 : (c :: rest).takeWhile (fun e => decide (e.index ≤ c.index + 50)) =
            c :: rest.takeWhile (fun e => decide (e.index ≤ c.index + 50)) := by
          simp [List.takeWhile_cons]
        have hdw0 : (c :: rest).dropWhile (fun e => decide (e.index ≤ c.index + 50)) =
            rest.dropWhile (fun e => decide (e.index ≤ c.index + 50)) := by
          simp [List.dropWhile_cons]
        have hfiltB : List.filter (fun e => decide (e.index ≤ c.index + 50)) (b :: B) = b :: B :=
          List.filter_eq_self.mpr (fun e he => by simp [(hwin e he).2])
        have hfiltBs : List.filter (fun e => decide (e.index ≤ c.index + 50)) Bs.flatten = [] :=
          List.filter_eq_nil_iff.mpr (fun x hx => by
            have := hsep x hx
            simp
            omega)
        have hqB : List.filter (fun e => decide (¬ e.index ≤ c.index + 50)) (b :: B) = [] :=
          List.filter_eq_nil_iff.mpr (fun e he => by
            have := (hwin e he).2
            simp
            omega)
        have hqBs : List.filter (fun e => decide (¬ e.index ≤ c.index + 50)) Bs.flatten =
            Bs.flatten :=
          List.filter_eq_self.mpr (fun x hx => by
            have := hsep x hx
            simp
            omega)
        have hpC : (List.filter (fun e => decide (e.index ≤ c.index + 50)) (c :: rest)).Perm
            (b :: B) := by
          have h := List.Perm.filter (fun e => decide (e.index ≤ c.index + 50)) hperm
          rw [List.flatten_cons, List.filter_append, hfiltB, hfiltBs, List.append_nil] at h
          exact h
        have hqC : (List.filter (fun e => decide (¬ e.index ≤ c.index + 50)) (c :: rest)).Perm
            Bs.flatten := by
          have h := List.Perm.filter (fun e => decide (¬ e.index ≤ c.index + 50)) hperm
          rw [List.flatten_cons, List.filter_append, hqB, hqBs, List.nil_append] at h
          exact h
        have hlenC : (c :: rest).length =
            (List.filter (fun e => decide (e.index ≤ c.index + 50)) (c :: rest)).length +
            (List.filter (fun e => decide (¬ e.index ≤ c.index + 50)) (c :: rest)).length := by
          conv_lhs => rw [← List.takeWhile_append_dropWhile
            (fun e => decide (e.index ≤ c.index + 50)) (c :: rest)]
          rw [List.length_append, htwdw.1, htwdw.2]
        have hfuel : (List.filter (fun e => decide (¬ e.index ≤ c.index + 50))
            (c :: rest)).length ≤ fuel := by
          have h1 := hpC.length_eq
          simp only [List.length_cons] at hf h1 hlenC
          omega
        have ih := blocks_cluster Bs fuel _ hfuel
          (hs.sublist (List.filter_sublist _))
          hqC hok.2
        simp only [clusterF, List.map_cons]
        rw [List.filter_cons_of_pos (by simp), List.map_cons]
        congr 1
        · rw [show c :: rest.takeWhile (fun e => decide (e.index ≤ c.index + 50)) =
              List.filter (fun e => decide (e.index ≤ c.index + 50)) (c :: rest) by
            rw [← htw0, htwdw.1]]
          exact hpC.length_eq
        · rw [show rest.dropWhile (fun e => decide (e.index ≤ c.index + 50)) =
              List.filter (fun e => decide (¬ e.index ≤ c.index + 50)) (c :: rest) by
            rw [← hdw0, htwdw.2]]
          exact ih

/-- The candidate pairs of a sorted entry list are sorted by entry
index. -/
theorem choiceCands_sorted {s : List Entry} (hs : List.Pairwise idxLe s) :
    List.Pairwise (fun p q : Nat × Entry => p.2.index ≤ q.2.index) (choiceCands s) := by
  have h0 : List.Pairwise idxLe (s.enum.map Prod.snd) := by
    rw [List.enum_map_snd]
    exact hs
  have h1 := List.pairwise_map.1 h0
  have h2 : List.Pairwise (fun p q : Nat × Entry => p.2.index ≤ q.2.index) s.enum :=
    h1.imp (fun h => h)
  exact h2.sublist (List.filter_sublist _)

/-- Every position of a converted cluster is marked for removal. -/
theorem removed_of_conv {s : List Entry} {g : List (Nat × Entry)} {pe : Nat × Entry}
    (hg : g ∈ choiceClusters s) (hconv : 2 ≤ g.length ∧ g.length ≤ 5) (hpe : pe ∈ g) :
    pe.1 ∈ removedPos s := by
  unfold removedPos
  refine List.mem_flatten.mpr ⟨g.map Prod.fst, ?_, List.mem_map.2 ⟨pe, hpe, rfl⟩⟩
  refine List.mem_map.2 ⟨g, ?_, rfl⟩
  exact List.mem_filter.2 ⟨hg, by simpa using hconv⟩

/-- No position of an unconverted cluster is marked for removal. -/
theorem notRemoved_of_unconv {s : List Entry} {g : List (Nat × Entry)} {pe : Nat × Entry}
    (hg : g ∈ choiceClusters s) (hnc : ¬ (2 ≤ g.length ∧ g.length ≤ 5)) (hpe : pe ∈ g) :
    pe.1 ∉ removedPos s := by
  intro hj
  obtain ⟨g', qe, hg'cl, hg'sz, hqe, hq1⟩ := removedPos_spec hj
  have hgne : g ≠ g' := fun hEq => hnc (hEq ▸ hg'sz)
  have hqe_c := mem_of_mem_choiceClusters hg'cl hqe
  have hpe_c := mem_of_mem_choiceClusters hg hpe
  have hqe_e : (pe.1, qe.2) ∈ s.enum := by
    have hh := List.mem_of_mem_filter hqe_c
    rwa [show qe = (pe.1, qe.2) by
      cases qe
      simp only at hq1
      simp [hq1]] at hh
  have hpe_e : (pe.1, pe.2) ∈ s.enum := by
    have hh := List.mem_of_mem_filter hpe_c
    rwa [show pe = (pe.1, pe.2) by cases pe; rfl] at hh
  have hsame : qe.2 = pe.2 := enum_functional hqe_e hpe_e
  have hqepe : qe = pe := by
    cases qe
    cases pe
    simp only at hq1 hsame
    simp [hq1, hsame]
  exact choiceClusters_disjoint hg hg'cl hgne hpe (hqepe ▸ hqe)

/-- The candidates among the kept entries are the unremoved candidate
pairs in order. -/
theorem keptEntries_filter_cand (l : List Entry) :
    (keptEntries l).filter is_choice_candidate =
      ((choiceCands l).filter
        (fun pe => !(removedPos l).contains pe.1)).map Prod.snd := by
  unfold keptEntries choiceCands
  rw [List.filter_map]
  congr 1
  rw [List.filter_filter, List.filter_filter]
  exact List.filter_congr (fun pe _ => Bool.and_comm _ _)

/-- The unremoved candidate pairs are exactly the members of the
unconverted clusters, in cluster order. -/
theorem cands_filter_notRemoved (s : List Entry) :
    (choiceCands s).filter (fun pe => !(removedPos s).contains pe.1) =
      ((choiceClusters s).map
        (fun g => if 2 ≤ g.length ∧ g.length ≤ 5 then [] else g)).flatten := by
  conv_lhs => rw [← choiceClusters_flatten s]
  rw [List.filter_flatten]
  congr 1
  refine List.map_congr_left (fun g hg => ?_)
  by_cases hconv : 2 ≤ g.length ∧ g.length ≤ 5
  · rw [if_pos hconv]
    refine List.filter_eq_nil_iff.mpr (fun pe hpe => ?_)
    have := removed_of_conv hg hconv hpe
    simp [this]
  · rw [if_neg hconv]
    refine List.filter_eq_self.mpr (fun pe hpe => ?_)
    have := notRemoved_of_unconv hg hconv hpe
    simp [this]

/-- The candidates among the kept entries flatten the unconverted
residues. -/
theorem keptEntries_filter_eq (s : List Entry) :
    (keptEntries s).filter is_choice_candidate =
      ((choiceClusters s).map unconvResidue).flatten := by
  rw [keptEntries_filter_cand, cands_filter_notRemoved, List.map_flatten]
  congr 1
  rw [List.map_map]
  refine List.map_congr_left (fun g _ => ?_)
  unfold unconvResidue
  by_cases hconv : 2 ≤ g.length ∧ g.length ≤ 5
  · simp [hconv]
  · simp [hconv]

/-- The candidates among the synthetic entries flatten the converted
residues. -/
theorem groupedEntries_filter_eq (s : List Entry) :
    (groupedEntries s).filter is_choice_candidate =
      ((choiceClusters s).map convResidue).flatten := by
  unfold groupedEntries
  rw [filter_map_flatten is_choice_candidate
    (fun g => mkCombinedChoice (g.map Prod.snd)) (convClusters s)]
  unfold convClusters
  rw [flatten_map_filter]
  congr 1
  refine List.map_congr_left (fun g _ => ?_)
  unfold convResidue
  by_cases hconv : 2 ≤ g.length ∧ g.length ≤ 5
  · simp [hconv]
  · simp [hconv]

/-- The candidates of a nontrivially grouped list are a permutation of
the flattened cluster residues. -/
theorem grouped_filter_cand_perm (s : List Entry)
    (hne : (choiceCands s).isEmpty = false) :
    ((group_related_choices s).filter is_choice_candidate).Perm
      ((choiceClusters s).map clusterResidue).flatten := by
  have hout : group_related_choices s =
      List.insertionSort idxLe (keptEntries s ++ groupedEntries s) := by
    unfold group_related_choices
    rw [if_neg (by simp [hne])]
  rw [hout]
  have h1 : (List.insertionSort idxLe (keptEntries s ++ groupedEntries s)).Perm
      (keptEntries s ++ groupedEntries s) := List.perm_insertionSort idxLe _
  refine (List.Perm.filter _ h1).trans ?_
  rw [List.filter_append, keptEntries_filter_eq, groupedEntries_filter_eq]
  refine ((flatten_map_append_perm unconvResidue convResidue (choiceClusters s)).symm).trans ?_
  rw [show ((choiceClusters s).map fun g => unconvResidue g ++ convResidue g) =
      (choiceClusters s).map clusterResidue from
    List.map_congr_left (fun g _ => (clusterResidue_eq_append g).symm)]

/-- The residues of a sorted list's clusters form a window-separated
block structure. -/
theorem blocksOK_of_sorted {s : List Entry} (hs : List.Pairwise idxLe s) :
    BlocksOK ((choiceClusters s).map clusterResidue) := by
  refine BlocksOK_mk clusterResidue (choiceClusters s) ?_ ?_ ?_
  · intro g hg e he
    obtain ⟨c, tl, rfl, hwin⟩ := clusterF_window _ _ _ g hg
    have hsub : (c :: tl).Sublist (choiceCands s) := clusterF_mem_sublist _ _ _ _ hg
    have hgsort : List.Pairwise (fun p q : Nat × Entry => p.2.index ≤ q.2.index) (c :: tl) :=
      (choiceCands_sorted hs).sublist hsub
    have hgsort1 := (List.pairwise_cons.1 hgsort).1
    refine ⟨c, List.head?_cons, ?_⟩
    unfold clusterResidue at he
    by_cases hconv : 2 ≤ (c :: tl).length ∧ (c :: tl).length ≤ 5
    · rw [if_pos hconv] at he
      have he1 := List.mem_of_mem_filter he
      have he2 : e = mkCombinedChoice ((c :: tl).map Prod.snd) := by
        simpa using he1
      have he3 : e.index = c.2.index := by
        rw [he2]
        simp [mkCombinedChoice]
      omega
    · rw [if_neg hconv] at he
      obtain ⟨pe, hpe, rfl⟩ := List.mem_map.1 he
      rcases List.mem_cons.1 hpe with rfl | hpe
      · omega
      · have h1 := hgsort1 pe hpe
        have h2 := hwin pe hpe
        omega
  · intro g hg hne
    obtain ⟨c, tl, rfl, hwin⟩ := clusterF_window _ _ _ g hg
    refine ⟨c, List.head?_cons, ?_⟩
    unfold clusterResidue at hne ⊢
    by_cases hconv : 2 ≤ (c :: tl).length ∧ (c :: tl).length ≤ 5
    · rw [if_pos hconv] at hne ⊢
      simp only [List.map_cons] at hne ⊢
      cases hcand : is_choice_candidate (mkCombinedChoice (c.2 :: tl.map Prod.snd))
      · exact absurd (by simp [List.filter_cons, hcand]) hne
      · refine ⟨mkCombinedChoice (c.2 :: tl.map Prod.snd), ?_, ?_⟩
        · simp [List.filter_cons, hcand]
        · simp [mkCombinedChoice]
    · rw [if_neg hconv] at hne ⊢
      exact ⟨c.2, List.mem_map.2 ⟨c, List.mem_cons_self _ _, rfl⟩, rfl⟩
  · have h := clusterF_sep (fun pe : Nat × Entry => pe.2.index) (choiceCands s).length
      (choiceCands s) (Nat.le_refl _) (choiceCands_sorted hs)
    exact h

/-- Grouping preserves sortedness by index (a sorted input stays
sorted, and a nontrivial grouping sorts its output). -/
theorem grouped_sorted {s : List Entry} (hs : List.Pairwise idxLe s) :
    List.Pairwise idxLe (group_related_choices s) := by
  unfold group_related_choices
  split
  · exact hs
  · exact List.sorted_insertionSort idxLe _

/-- After grouping a sorted list, no candidate cluster of the output has
between 2 and 5 members: converted clusters leave at most a singleton
residue and unconverted clusters re-cluster whole. -/
theorem convClusters_grouped_nil {s : List Entry} (hs : List.Pairwise idxLe s) :
    convClusters (group_related_choices s) = [] := by
  cases hne : (choiceCands s).isEmpty
  · have ht_sorted := grouped_sorted hs
    have hperm := grouped_filter_cand_perm s hne
    have hok := blocksOK_of_sorted hs
    have hCt_sorted : List.Pairwise idxLe
        ((group_related_choices s).filter is_choice_candidate) :=
      ht_sorted.sublist (List.filter_sublist _)
    have htrace : (choiceCands (group_related_choices s)).map (fun pe => pe.2.index) =
        ((group_related_choices s).filter is_choice_candidate).map Entry.index := by
      rw [← choiceCands_map_snd, List.map_map]
      rfl
    have hlens := clusterF_lengths (fun pe : Nat × Entry => pe.2.index) Entry.index
      (choiceCands (group_related_choices s)).length
      (choiceCands (group_related_choices s))
      ((group_related_choices s).filter is_choice_candidate) htrace
    have hflen : ((group_related_choices s).filter is_choice_candidate).length =
        (choiceCands (group_related_choices s)).length := by
      rw [← choiceCands_map_snd]
      simp
    have hbc := blocks_cluster ((choiceClusters s).map clusterResidue)
      (choiceCands (group_related_choices s)).length
      ((group_related_choices s).filter is_choice_candidate)
      (by rw [hflen]) hCt_sorted hperm hok
    have hcl : (choiceClusters (group_related_choices s)).map List.length =
        (((choiceClusters s).map clusterResidue).filter
          (fun B => !B.isEmpty)).map List.length := by
      unfold choiceClusters clusterGreedy
      rw [hlens]
      exact hbc
    unfold convClusters
    refine List.filter_eq_nil_iff.mpr (fun g hgmem => ?_)
    have hgl : g.length ∈ (choiceClusters (group_related_choices s)).map List.length :=
      List.mem_map.2 ⟨g, hgmem, rfl⟩
    rw [hcl] at hgl
    obtain ⟨B, hBmem, hBlen⟩ := List.mem_map.1 hgl
    have hBne : B ≠ [] := by
      have := (List.mem_filter.1 hBmem).2
      simpa using this
    obtain ⟨g₀, hg₀, rfl⟩ := List.mem_map.1 (List.mem_of_mem_filter hBmem)
    unfold clusterResidue at hBlen hBne
    by_cases hconv : 2 ≤ g₀.length ∧ g₀.length ≤ 5
    · rw [if_pos hconv] at hBlen
      have hle : (List.filter is_choice_candidate
          [mkCombinedChoice (g₀.map Prod.snd)]).length ≤ 1 := by
        cases hcand : is_choice_candidate (mkCombinedChoice (g₀.map Prod.snd)) <;>
          simp [List.filter_cons, hcand]
      simp only [decide_eq_true_eq]
      omega
    · rw [if_neg hconv] at hBlen
      have hBl : g₀.length = g.length := by
        simpa using hBlen
      simp only [decide_eq_true_eq]
      omega
  · have hemp : choiceCands s = [] := by
      cases h : choiceCands s
      · rfl
      · rw [h] at hne
        simp at hne
    have hgs : group_related_choices s = s := by
      unfold group_related_choices
      rw [if_pos (by rw [hemp]; rfl)]
    rw [hgs]
    unfold convClusters choiceClusters clusterGreedy
    rw [hemp]
    rfl

/-- When no cluster is converted, grouping returns a sorted list
unchanged. -/
theorem g_of_convNil {l : List Entry} (hcn : convClusters l = [])
    (hsorted : List.Pairwise idxLe l) : group_related_choices l = l := by
  have hrem : removedPos l = [] := by
    unfold removedPos
    rw [hcn]
    rfl
  have hkept : keptEntries l = l := by
    unfold keptEntries
    rw [hrem]
    have hall : ∀ pe ∈ l.enum, (!([] : List Nat).contains pe.1) = true := by
      intro pe _
      rfl
    rw [List.filter_eq_self.mpr hall, List.enum_map_snd]
  have hgrp : groupedEntries l = [] := by
    unfold groupedEntries
    rw [hcn]
    rfl
  unfold group_related_choices
  split
  · rfl
  · rw [hkept, hgrp, List.append_nil]
    exact List.Sorted.insertionSort_eq hsorted

set_option maxRecDepth 8192 in
/-- C4 counterexample: on an input not sorted by index, applying the
choice-grouping pass twice does not equal applying it once: the first
pass clusters in list order (one cluster of six, unconverted) and then
sorts, and the second pass re-clusters the sorted candidates into a
convertible cluster of five. -/
theorem C4_counterexample :
    group_related_choices (group_related_choices c4s) ≠ group_related_choices c4s := by
  decide

/-- C4 (amended): the choice-grouping pass is idempotent on inputs
sorted by index: synthetic choice entries and surviving candidates of a
grouped sorted list never form a new convertible cluster, so a second
pass returns the output of the first unchanged. -/
theorem C4_grouping_idempotent_sorted (s : List Entry)
    (hs : List.Pairwise idxLe s) :
    group_related_choices (group_related_choices s) = group_related_choices s :=
  g_of_convNil (convClusters_grouped_nil hs) (grouped_sorted hs)

set_option maxRecDepth 8192 in
theorem C4_grouping_idempotent_sorted_witness :
    group_related_choices (group_related_choices c4w) = group_related_choices c4w :=
  C4_grouping_idempotent_sorted c4w (by decide)

set_option maxRecDepth 8192 in
theorem C8_choice_grouping_witness :
    (mkCombinedChoice [c4entry 10, c4entry 20] ∈ group_related_choices c8w ∧
      mkCombinedChoice [c4entry 10, c4entry 20] =
        specChoice 10 [pyStrip (c4entry 10).text, pyStrip (c4entry 20).text]) ∧
    c8nc ∈ group_related_choices c8w := by
  constructor
  · have h := (C8_choice_grouping c8w).2.2.1 [(0, c4entry 10), (1, c4entry 20)]
      (by decide) (by decide)
    exact ⟨h.1, h.2⟩
  · exact (C8_choice_grouping c8w).2.2.2.2.1 c8nc (by decide) (by decide)

set_option maxRecDepth 8192 in
/-- C7: on the two continuation fragments inside a Pearl speaker run,
the assembler does not close the run after the first fragment, whose
double-quote count is odd, and merges both fragments into one utterance
whose final text has an even double-quote count. -/
theorem C7_quote_balance_merge :
    combine_dialogue_entries c7entries =
      [{ index := 1, text := lc "He said \"hello world\" and left.",
         speaker := lc "Pearl", type := 0x04 }] ∧
    (lc "He said \"hello").count '"' % 2 = 1 ∧
    ((combine_dialogue_entries c7entries).headD default).text.count '"' % 2 = 0 := by
  refine ⟨by decide, by decide, by decide⟩

end STCM2L
